import Mathlib

/-!
Verification development for a fragment of a graph-neural-network library.

The fragment contains three source files:
* `torch_geometric/nn/pool/glob.py` — the global pooling reducers
  `global_add_pool`, `global_mean_pool`, `global_max_pool`;
* `torch_geometric/nn/aggr/multi.py` — the `MultiAggregation` combinator;
* `test/loader/test_link_neighbor_loader.py` — tests of `LinkNeighborLoader`
  (whose implementation is not part of the fragment; it is modelled from the
  specification where needed, see the doc comments below).

Tensors are embedded shallowly as a shape (a list of dimension sizes)
together with a flattened row-major data list over `Rat`; machine floating
point is abstracted to exact rationals.
-/

/-- A dense tensor: a shape and flattened row-major data. -/
structure Tensor where
  shape : List Nat
  data : List Rat
deriving DecidableEq

/-- Split a list into consecutive chunks of length `n` (the last chunk may be
shorter); fuel-based structural recursion so that it reduces definitionally. -/
def chunksOfAux {α : Type} (fuel n : Nat) (l : List α) : List (List α) :=
  match fuel with
  | 0 => if l.isEmpty then [] else [l]
  | fuel' + 1 =>
    if l.isEmpty then []
    else if n = 0 then [l]
    else l.take n :: chunksOfAux fuel' n (l.drop n)

/-- Split a list into consecutive chunks of length `n`. -/
def chunksOf {α : Type} (n : Nat) (l : List α) : List (List α) :=
  chunksOfAux l.length n l

/-- Sum of a list of rationals (the reducer of `reduce='add'`). -/
def redSum (l : List Rat) : Rat := l.sum

/-- Mean of a list of rationals (the reducer of `reduce='mean'`; an empty
segment reduces to `0`). -/
def redMean (l : List Rat) : Rat := if l.length = 0 then 0 else l.sum / (l.length : Rat)

/-- Maximum of a list of rationals (the reducer of `reduce='max'`; an empty
segment reduces to `0`). -/
def redMax (l : List Rat) : Rat :=
  match l with
  | [] => 0
  | a :: t => t.foldl max a

/-- Reduce one column of a row-major `M × F` block. -/
def colReduce (red : List Rat → Rat) (M F : Nat) (block : List Rat) (f : Nat) : Rat :=
  red ((List.range M).map (fun m => block.getD (m * F + f) 0))

/-- Reduction over dimension `-2` (the second-to-last dimension), optionally
keeping the reduced dimension, as in `x.sum(dim=-2, keepdim=...)`. -/
def reduceDimNeg2 (red : List Rat → Rat) (keepdim : Bool) (x : Tensor) : Tensor :=
  let n := x.shape.length
  let F := x.shape.getD (n - 1) 1
  let M := x.shape.getD (n - 2) 1
  let blocks := chunksOf (M * F) x.data
  { shape := x.shape.take (n - 2) ++ (if keepdim then [1, F] else [F]),
    data := (blocks.map (fun b => (List.range F).map (colReduce red M F b))).flatten }

/-- Segment reduction over dimension `-2` as performed by
`torch_scatter.scatter(x, batch, dim=-2, dim_size=size, reduce=...)`. -/
def scatterDimNeg2 (red : List Rat → Rat) (x : Tensor) (bIdx : List Nat) (dimSize : Nat) :
    Tensor :=
  let n := x.shape.length
  let F := x.shape.getD (n - 1) 1
  let M := x.shape.getD (n - 2) 1
  let blocks := chunksOf (M * F) x.data
  { shape := x.shape.take (n - 2) ++ [dimSize, F],
    data := (blocks.map (fun b =>
      ((List.range dimSize).map (fun j => (List.range F).map (fun f =>
        red (((List.range M).filter (fun m => bIdx.getD m 0 = j)).map
          (fun m => b.getD (m * F + f) 0))))).flatten)).flatten }

/-- Maximum of a list of naturals with default `0`
(models `int(batch.max().item())`). -/
def maxNatList (l : List Nat) : Nat := l.foldl max 0

/-- Embedding of `global_add_pool` from `torch_geometric/nn/pool/glob.py`:
with `batch = None` it sums over dimension `-2`, keeping the dimension
exactly when the input is 2-dimensional; otherwise it scatter-adds rows into
`size` segments (with `size = batch.max() + 1` when not given). -/
def global_add_pool (x : Tensor) (batch : Option (List Nat)) (size : Option Nat) : Tensor :=
  match batch with
  | none => reduceDimNeg2 redSum (x.shape.length == 2) x
  | some b =>
    let sz := match size with
      | some s => s
      | none => maxNatList b + 1
    scatterDimNeg2 redSum x b sz

/-- Embedding of `global_mean_pool` from `torch_geometric/nn/pool/glob.py`. -/
def global_mean_pool (x : Tensor) (batch : Option (List Nat)) (size : Option Nat) : Tensor :=
  match batch with
  | none => reduceDimNeg2 redMean (x.shape.length == 2) x
  | some b =>
    let sz := match size with
      | some s => s
      | none => maxNatList b + 1
    scatterDimNeg2 redMean x b sz

/-- Embedding of `global_max_pool` from `torch_geometric/nn/pool/glob.py`. -/
def global_max_pool (x : Tensor) (batch : Option (List Nat)) (size : Option Nat) : Tensor :=
  match batch with
  | none => reduceDimNeg2 redMax (x.shape.length == 2) x
  | some b =>
    let sz := match size with
      | some s => s
      | none => maxNatList b + 1
    scatterDimNeg2 redMax x b sz

/-! ### `MultiAggregation` (`torch_geometric/nn/aggr/multi.py`) -/

/-- A resolved aggregation scheme. The fragment resolves aggregations through
an external resolver; the model restricts attention to the reduction kinds
used by the fragment's own pooling reducers. -/
inductive AggrKind where
  | asum
  | amean
  | amax
deriving DecidableEq

/-- Apply a resolved aggregation, reusing the pooling reducers (the source's
`Aggregation` modules reduce over dimension `-2`, segmenting by `index`). -/
def aggrApply (k : AggrKind) (x : Tensor) (index : Option (List Nat))
    (dimSize : Option Nat) : Tensor :=
  match k with
  | .asum => global_add_pool x index dimSize
  | .amean => global_mean_pool x index dimSize
  | .amax => global_max_pool x index dimSize

/-- A Python value that can appear as `in_channels` / `out_channels` in
`mode_kwargs`: an integer or a tuple of integers. -/
inductive ChanVal where
  | int (n : Int)
  | tup (l : List Int)
deriving DecidableEq

/-- Python truthiness of an optional channel value (`None`, `0` and `()` are
falsy). -/
def chanTruthy : Option ChanVal → Bool
  | none => false
  | some (.int n) => decide (n ≠ 0)
  | some (.tup l) => decide (l ≠ [])

/-- Python's short-circuit `and` on optional channel values: returns the
first operand when it is falsy, the second otherwise. -/
def pyAnd (a b : Option ChanVal) : Option ChanVal := if chanTruthy a then b else a

/-- The `mode_kwargs` dictionary of `MultiAggregation.__init__`, restricted to
the keys the constructor pops (`none` models an absent key or an explicit
Python `None`). -/
structure ModeKwargs where
  in_channels : Option ChanVal
  out_channels : Option ChanVal
  num_heads : Option Nat
deriving DecidableEq

/-- The Python argument passed as `aggrs`: either a list/tuple of aggregation
schemes, or a value of some other type (whose type name is recorded). -/
inductive AggrsArg where
  | list (l : List AggrKind)
  | notSeq (tyName : String)
deriving DecidableEq

/-- The constructed `MultiAggregation` module: its resolved sub-aggregators
and the configured combine mode. -/
structure MultiAggregation where
  aggrs : List AggrKind
  mode : String
deriving DecidableEq

/-- The `dense_combine_modes` list of `MultiAggregation.__init__`. -/
def dense_combine_modes : List String :=
  ["sum", "mean", "max", "min", "logsumexp", "std", "var"]

/-- The tail of `MultiAggregation.__init__` after the `aggrs` validation
(source lines 66-104): the `proj`/`attn` combine modes require more than one
aggregator and a `(in_channels and out_channels)` chain that is not `None`;
every other mode constructs directly. -/
def initTail (l : List AggrKind) (mode : String) (mode_kwargs : ModeKwargs) :
    Except String MultiAggregation :=
  if mode = "proj" ∨ mode = "attn" then
    if l.length = 1 then
      .error "Multiple aggregations are required for proj or attn combine mode"
    else
      if pyAnd mode_kwargs.in_channels mode_kwargs.out_channels = none then
        .error "Combine mode must have in_channels and out_channels specified"
      else .ok { aggrs := l, mode := mode }
  else .ok { aggrs := l, mode := mode }

/-- Embedding of `MultiAggregation.__init__`, raising (`Except.error`) exactly
where the source raises `ValueError`, in source order: `aggrs` not a
list/tuple; `aggrs` empty; `aggrs_kwargs` of mismatched length; then the
combine-mode checks of `initTail`. The external `Linear` and
`MultiheadAttention` submodules and the aggregation resolver are assumed to
construct successfully. -/
def initMultiAggregation (aggrs : AggrsArg)
    (aggrs_kwargs : Option (List (List (String × Int)))) (mode : String)
    (mode_kwargs : ModeKwargs) : Except String MultiAggregation :=
  match aggrs with
  | .notSeq _ => .error "aggrs should be a list or tuple"
  | .list l =>
    if l.length = 0 then .error "aggrs should not be empty"
    else
      match aggrs_kwargs with
      | none => initTail l mode mode_kwargs
      | some ks =>
        if l.length ≠ ks.length then .error "aggrs_kwargs with invalid length"
        else initTail l mode mode_kwargs

/-- Concatenation of tensors along the last dimension (`torch.cat(.., dim=-1)`). -/
def tcat (ts : List Tensor) : Tensor :=
  match ts with
  | [] => { shape := [], data := [] }
  | t :: _ =>
    let n := t.shape.length
    let F0 := t.shape.getD (n - 1) 1
    let rows := t.data.length / F0
    let Fs := ts.map (fun s => s.shape.getD (n - 1) 1)
    { shape := t.shape.take (n - 1) ++ [Fs.sum],
      data := ((List.range rows).map (fun r =>
        (ts.map (fun s =>
          let F := s.shape.getD (n - 1) 1
          (s.data.drop (r * F)).take F)).flatten)).flatten }

/-- Unbiased variance of a list of rationals, as `torch.var` computes it. -/
def varRat (l : List Rat) : Rat :=
  if l.length ≤ 1 then 0
  else ((l.map (fun a => (a - redMean l) ^ 2)).sum) / ((l.length : Rat) - 1)

/-- Scalar reducer of the dense combine modes. The real-valued `std` and
`logsumexp` kernels of the external framework are not representable over
`Rat`; they are abstracted by the nearest representable reduction (no claim
evaluates them). -/
def denseReduce (mode : String) (l : List Rat) : Rat :=
  if mode = "sum" then l.sum
  else if mode = "mean" then redMean l
  else if mode = "max" then redMax l
  else if mode = "min" then
    (match l with
     | [] => 0
     | a :: t => t.foldl min a)
  else if mode = "var" then varRat l
  else if mode = "std" then varRat l
  else redMax l

/-- Elementwise dense combination: stack the inputs along a new leading
dimension and reduce it with the mode's reducer
(`self.dense_combine(torch.stack(inputs, dim=0), dim=0)`). -/
def denseCombine (mode : String) (inputs : List Tensor) : Tensor :=
  match inputs with
  | [] => { shape := [], data := [] }
  | t :: _ =>
    { shape := t.shape,
      data := (List.range t.data.length).map (fun i =>
        denseReduce mode (inputs.map (fun s => s.data.getD i 0))) }

/-- The `attn` combine path. The external `MultiheadAttention` and `Linear`
head modules are framework collaborators; the model abstracts the whole path
as the mean of the stacked inputs (no claim evaluates it). -/
def attnCombine (inputs : List Tensor) : Tensor := denseCombine "mean" inputs

/-- Embedding of `MultiAggregation.combine`: `cat`/`proj` concatenate along
the last dimension (the external `Linear` projection of `proj` is abstracted
as the identity), `attn` runs the attention path, the dense modes reduce the
stacked inputs, and any other mode raises `ValueError`. -/
def combineMA (m : MultiAggregation) (inputs : List Tensor) : Except String Tensor :=
  if m.mode = "cat" ∨ m.mode = "proj" then .ok (tcat inputs)
  else if m.mode = "attn" then .ok (attnCombine inputs)
  else if m.mode ∈ dense_combine_modes then .ok (denseCombine m.mode inputs)
  else .error "Combine mode is not supported"

/-- Embedding of `MultiAggregation.forward`: apply every sub-aggregator and
return `self.combine(outs) if len(outs) > 1 else outs[0]`. -/
def MultiAggregation.forward (m : MultiAggregation) (x : Tensor)
    (index : Option (List Nat)) (dimSize : Option Nat) : Except String Tensor :=
  let outs := m.aggrs.map (fun a => aggrApply a x index dimSize)
  if outs.length > 1 then combineMA m outs
  else .ok (outs.getD 0 { shape := [], data := [] })

/-! ### `LinkNeighborLoader` (modelled from the specification)

The loader's implementation is not part of the fragment (only its tests are),
so the batch-construction pipeline is modelled from the specification's five
steps: (1) optionally generate negative edge samples, (2) sample a
bounded-depth, bounded-fanout neighborhood around the seed nodes (respecting
directedness and temporal constraints), (3) remap sampled global node ids to
a compact local numbering, (4) slice out corresponding feature tensors and
edge attributes, (5) package the result as a self-contained subgraph object
with edge-label metadata pointing into the new local id space. -/

/-- Modelled from the spec: the in-memory homogeneous graph the loader reads
(node count, edge list in column order, node features, edge attributes). -/
structure Graph where
  num_nodes : Nat
  edges : List (Nat × Nat)
  x : List Int
  edge_attr : List Int
deriving DecidableEq

/-- Well-formedness of a graph: feature and attribute tensors have matching
lengths and every edge endpoint is a valid node id. -/
def Graph.Valid (g : Graph) : Prop :=
  g.x.length = g.num_nodes ∧ g.edge_attr.length = g.edges.length ∧
    ∀ e ∈ g.edges, e.1 < g.num_nodes ∧ e.2 < g.num_nodes

/-- The graph's edges paired with their edge ids (positions in the edge
list), used to slice `edge_attr` for sampled edges. -/
def edgesWithId (g : Graph) : List (Nat × Nat × Nat) :=
  (List.range g.edges.length).map
    (fun i => (i, (g.edges.getD i (0, 0)).1, (g.edges.getD i (0, 0)).2))

/-- Modelled from the spec: the incident edges considered when sampling the
neighborhood of `v` — respecting directedness, a directed loader samples the
in-edges of `v`, an undirected one every edge touching `v`. -/
def incident (g : Graph) (directed : Bool) (v : Nat) : List (Nat × Nat × Nat) :=
  (edgesWithId g).filter
    (fun e => if directed then e.2.2 == v else e.2.1 == v || e.2.2 == v)

/-- Modelled from the spec: the bounded fanout of one node at one hop — keep
at most `k` of its incident edges, with `-1` meaning all of them. -/
def takeFan {α : Type} (k : Int) (l : List α) : List α :=
  if k < 0 then l else l.take k.toNat

/-- Append a node to the sampled-node list unless it is already present
(keeps the compact local numbering stable and duplicate-free). -/
def insertNode (cur : List Nat) (v : Nat) : List Nat :=
  if v ∈ cur then cur else cur ++ [v]

/-- Append each node of `ns` to `cur`, skipping duplicates. -/
def addNodes (cur : List Nat) (ns : List Nat) : List Nat :=
  ns.foldl insertNode cur

/-- The sampler's state: the sampled nodes in local-id order and the sampled
edges (with their edge ids). -/
structure SState where
  nodes : List Nat
  edges : List (Nat × Nat × Nat)
deriving DecidableEq

/-- One hop's per-node contributions: every frontier node paired with the at
most `k` incident edges sampled for it. -/
def hopContrib (g : Graph) (directed : Bool) (k : Int) (frontier : List Nat) :
    List (Nat × List (Nat × Nat × Nat)) :=
  frontier.map (fun v => (v, takeFan k (incident g directed v)))

/-- The edges sampled at one hop. -/
def hopEdges (g : Graph) (directed : Bool) (k : Int) (frontier : List Nat) :
    List (Nat × Nat × Nat) :=
  ((hopContrib g directed k frontier).map Prod.snd).flatten

/-- The endpoints of the edges sampled at one hop. -/
def hopNodes (g : Graph) (directed : Bool) (k : Int) (frontier : List Nat) :
    List Nat :=
  ((hopEdges g directed k frontier).map (fun e => [e.2.1, e.2.2])).flatten

/-- Modelled from the spec: one bounded-fanout hop per entry of the
`num_neighbors` list, expanding the frontier from the seed nodes. Returns the
final state and a per-hop trace recording, for every frontier node, the
edges sampled for it at that hop. -/
def sampleLoop (g : Graph) (directed : Bool) :
    List Int → List Nat → SState → SState × List (List (Nat × List (Nat × Nat × Nat)))
  | [], _, st => (st, [])
  | k :: ks, frontier, st =>
    let nodes2 := addNodes st.nodes (hopNodes g directed k frontier)
    let res := sampleLoop g directed ks (nodes2.drop st.nodes.length)
      { nodes := nodes2, edges := st.edges ++ hopEdges g directed k frontier }
    (res.1, hopContrib g directed k frontier :: res.2)

/-- The seed nodes of a list of seed edges: their endpoints, deduplicated in
order of first occurrence (these receive the first local ids). -/
def seedNodesOf (seeds : List (Nat × Nat)) : List Nat :=
  addNodes [] ((seeds.map (fun e => [e.1, e.2])).flatten)

/-- Modelled from the spec: sample the bounded-depth, bounded-fanout
neighborhood around the seed edges' endpoints. -/
def sampleSubgraph (g : Graph) (directed : Bool) (numNb : List Int)
    (seeds : List (Nat × Nat)) : SState × List (List (Nat × List (Nat × Nat × Nat))) :=
  let sn := seedNodesOf seeds
  sampleLoop g directed numNb sn { nodes := sn, edges := [] }

/-- Modelled from the spec: the distribution of generated negative samples is
unspecified; the model draws the `i`-th negative deterministically from the
node-id range. -/
def negPick (g : Graph) (i : Nat) : Nat × Nat :=
  (i % g.num_nodes, (i / g.num_nodes) % g.num_nodes)

/-- The loader's configuration: per-hop fanouts, directedness and the
negative-sampling ratio. -/
structure LoaderParams where
  num_neighbors : List Int
  directed : Bool
  neg_ratio : Nat
deriving DecidableEq

/-- One mini-batch packaged by the loader: a self-contained subgraph in a
compact local id space, with sliced features and edge-label metadata. -/
structure Batch where
  num_nodes : Nat
  edge_index : List (Nat × Nat)
  x : List Int
  edge_attr : List Int
  edge_label_index : List (Nat × Nat)
  edge_label : List Int
  n_id : List Nat
deriving DecidableEq

/-- Modelled from the spec: build one batch from the positive seed edges of
the mini-batch — generate `neg_ratio * batch_size` negative samples, sample
the neighborhood around all seed endpoints, remap global ids to the compact
local numbering given by the sampled-node list, slice `x` and `edge_attr`,
and package everything with edge labels (user labels are kept as given
without negative sampling, shifted up by one with it; generated labels are
`1` for positives and `0` for negatives). -/
def buildBatch (g : Graph) (p : LoaderParams) (seedPos : List (Nat × Nat))
    (userLabels : Option (List Int)) : Batch :=
  let negs := (List.range (p.neg_ratio * seedPos.length)).map (negPick g)
  let seedAll := seedPos ++ negs
  let labels :=
    match userLabels with
    | some ls =>
      if p.neg_ratio = 0 then ls
      else ls.map (fun a => a + 1) ++ List.replicate negs.length 0
    | none =>
      if p.neg_ratio = 0 then []
      else List.replicate seedPos.length 1 ++ List.replicate negs.length 0
  let st := (sampleSubgraph g p.directed p.num_neighbors seedAll).1
  let nid := st.nodes
  { num_nodes := nid.length,
    edge_index := st.edges.map (fun e => (nid.indexOf e.2.1, nid.indexOf e.2.2)),
    x := nid.map (fun v => g.x.getD v 0),
    edge_attr := st.edges.map (fun e => g.edge_attr.getD e.1 0),
    edge_label_index := seedAll.map (fun e => (nid.indexOf e.1, nid.indexOf e.2)),
    edge_label := labels,
    n_id := nid }

/-- Modelled from the spec: the loader iterates over the seed edges
(`edge_label_index` columns, paired with their labels when given) in
mini-batches of `batch_size`, building one packaged subgraph per chunk. -/
def linkLoaderBatches (g : Graph) (p : LoaderParams) (eli : List (Nat × Nat))
    (el : Option (List Int)) (bs : Nat) : List Batch :=
  match el with
  | none => (chunksOf bs eli).map (fun c => buildBatch g p c none)
  | some ls =>
    (chunksOf bs (eli.zip ls)).map
      (fun c => buildBatch g p (c.map Prod.fst) (some (c.map Prod.snd)))

/-! ### Temporal sampling (modelled from the specification) -/

/-- Modelled from the spec: with a temporal attribute configured, a hop from
a node explored on behalf of a seed with time budget `tmax` may only sample
incident edges both of whose endpoints carry a time not later than `tmax`. -/
def incidentT (g : Graph) (directed : Bool) (time : List Int) (tmax : Int) (v : Nat) :
    List (Nat × Nat × Nat) :=
  (incident g directed v).filter
    (fun e => decide (time.getD e.2.1 0 ≤ tmax) && decide (time.getD e.2.2 0 ≤ tmax))

/-- Insert a (node, inherited time budget) pair: the node is appended to the
sampled-node list and recorded as newly discovered unless already present. -/
def insertNodeT (acc : List Nat × List (Nat × Int)) (p : Nat × Int) :
    List Nat × List (Nat × Int) :=
  if p.1 ∈ acc.1 then acc else (acc.1 ++ [p.1], acc.2 ++ [p])

/-- Append the nodes of `ns` to `cur`, skipping duplicates, returning the
grown node list and the newly discovered (node, time budget) pairs. -/
def addNodesT (cur : List Nat) (ns : List (Nat × Int)) :
    List Nat × List (Nat × Int) :=
  ns.foldl insertNodeT (cur, [])

/-- One temporal hop's sampled edges, each paired with the time budget it was
sampled under. -/
def hopEdgesT (g : Graph) (directed : Bool) (time : List Int) (k : Int)
    (frontier : List (Nat × Int)) : List ((Nat × Nat × Nat) × Int) :=
  (frontier.map (fun p =>
    (takeFan k (incidentT g directed time p.2 p.1)).map (fun e => (e, p.2)))).flatten

/-- The (endpoint, inherited budget) pairs discovered at one temporal hop. -/
def hopNodesT (g : Graph) (directed : Bool) (time : List Int) (k : Int)
    (frontier : List (Nat × Int)) : List (Nat × Int) :=
  ((hopEdgesT g directed time k frontier).map
    (fun q => [(q.1.2.1, q.2), (q.1.2.2, q.2)])).flatten

/-- Modelled from the spec: temporal bounded-fanout hops. The frontier pairs
each node with the time budget inherited from the seed it was discovered
for; sampled neighbors respect that budget and inherit it. -/
def sampleLoopT (g : Graph) (directed : Bool) (time : List Int) :
    List Int → List (Nat × Int) → List Nat × List (Nat × Nat × Nat) →
      List Nat × List (Nat × Nat × Nat)
  | [], _, st => st
  | k :: ks, frontier, st =>
    let grown := addNodesT st.1 (hopNodesT g directed time k frontier)
    sampleLoopT g directed time ks grown.2
      (grown.1, st.2 ++ (hopEdgesT g directed time k frontier).map Prod.fst)

/-- A packaged temporal batch: sampled nodes, their sliced time attribute,
and the edge metadata in the local id space. -/
structure BatchT where
  n_id : List Nat
  time : List Int
  edge_index : List (Nat × Nat)
  edge_label_index : List (Nat × Nat)
deriving DecidableEq

/-- Modelled from the spec: build a temporal batch — each seed node starts
with its own time as budget, sampling respects and propagates the budgets,
and the time attribute is sliced to the sampled nodes. -/
def buildBatchT (g : Graph) (time : List Int) (p : LoaderParams)
    (seeds : List (Nat × Nat)) : BatchT :=
  let sn := seedNodesOf seeds
  let frontier0 := sn.map (fun v => (v, time.getD v 0))
  let st := sampleLoopT g p.directed time p.num_neighbors frontier0 (sn, [])
  let nid := st.1
  { n_id := nid,
    time := nid.map (fun v => time.getD v 0),
    edge_index := st.2.map (fun e => (nid.indexOf e.2.1, nid.indexOf e.2.2)),
    edge_label_index := seeds.map (fun e => (nid.indexOf e.1, nid.indexOf e.2)) }

/-- Maximum of a list of integers with default `0` (models `tensor.max()`
on a nonempty tensor). -/
def maxIntList (l : List Int) : Int :=
  match l with
  | [] => 0
  | a :: t => t.foldl max a

/-! ### The two storage backends (modelled from the specification) -/

/-- An edge-relation key: (source node type, relation name, target node
type). -/
abbrev EdgeKey := String × String × String

/-- Modelled from the spec: a pluggable feature store, keyed by group name
and attribute name (`put_tensor` appends an entry). -/
structure MyFeatureStore where
  tensors : List (String × String × List Int)
deriving DecidableEq

/-- Modelled from the spec: a pluggable graph store, keyed by relation type
(`put_edge_index` appends an entry). -/
structure MyGraphStore where
  gsEdges : List (EdgeKey × List (Nat × Nat))
deriving DecidableEq

/-- The store operation put_tensor(x, group_name, attr_name). -/
def put_tensor (fs : MyFeatureStore) (group attr : String) (x : List Int) :
    MyFeatureStore :=
  { tensors := fs.tensors ++ [(group, attr, x)] }

/-- The store operation put_edge_index(edge_index, edge_type, layout, size). -/
def put_edge_index (gs : MyGraphStore) (et : EdgeKey) (ei : List (Nat × Nat)) :
    MyGraphStore :=
  { gsEdges := gs.gsEdges ++ [(et, ei)] }

/-- The in-memory heterogeneous data object: per-type node features and
per-relation edge indices, assigned directly as attributes. -/
structure HeteroDataM where
  nodeX : List (String × List Int)
  edgeIdx : List (EdgeKey × List (Nat × Nat))
deriving DecidableEq

/-- The graph content a loader works on, independent of the backend that
stores it. -/
structure HeteroContent where
  nodeX : List (String × List Int)
  edgeIdx : List (EdgeKey × List (Nat × Nat))
deriving DecidableEq

/-- Extract the content of the in-memory data object. -/
def contentOfData (d : HeteroDataM) : HeteroContent :=
  { nodeX := d.nodeX, edgeIdx := d.edgeIdx }

/-- Extract the content held by a (feature store, graph store) pair: the
`x` attribute of every node type, and every stored relation. -/
def contentOfStores (fs : MyFeatureStore) (gs : MyGraphStore) : HeteroContent :=
  { nodeX := (fs.tensors.filter (fun t => t.2.1 == "x")).map (fun t => (t.1, t.2.2)),
    edgeIdx := gs.gsEdges }

/-- The id offset of node type `gname` when the typed id spaces are laid out
consecutively. -/
def offsetAux : List (String × List Int) → String → Nat
  | [], _ => 0
  | (k, xs) :: t, gname => if k = gname then 0 else xs.length + offsetAux t gname

/-- Modelled from the spec: flatten heterogeneous content into one
homogeneous graph by laying the typed node id spaces out consecutively. -/
def flattenGraph (c : HeteroContent) : Graph :=
  let edges := (c.edgeIdx.map (fun p =>
    p.2.map (fun e => (offsetAux c.nodeX p.1.1 + e.1, offsetAux c.nodeX p.1.2.2 + e.2)))).flatten
  { num_nodes := (c.nodeX.map (fun p => p.2.length)).sum,
    edges := edges,
    x := (c.nodeX.map Prod.snd).flatten,
    edge_attr := List.replicate edges.length 0 }

/-- Look up the edge index stored for a relation. -/
def lookupEdges (c : HeteroContent) (et : EdgeKey) : List (Nat × Nat) :=
  match c.edgeIdx.find? (fun p => p.1 == et) with
  | some p => p.2
  | none => []

/-- Modelled from the spec: the heterogeneous link loader over extracted
content — seed on the configured relation's edges (mapped into the flattened
id space) and run the homogeneous pipeline on the flattened graph. -/
def heteroLoaderBatches (c : HeteroContent) (p : LoaderParams) (seedRel : EdgeKey)
    (bs : Nat) : List Batch :=
  let g := flattenGraph c
  let eli := (lookupEdges c seedRel).map
    (fun e => (offsetAux c.nodeX seedRel.1 + e.1, offsetAux c.nodeX seedRel.2.2 + e.2))
  linkLoaderBatches g p eli none bs

/-- The loader built from the in-memory data object. -/
def loaderFromData (d : HeteroDataM) (p : LoaderParams) (seedRel : EdgeKey)
    (bs : Nat) : List Batch :=
  heteroLoaderBatches (contentOfData d) p seedRel bs

/-- The loader built from the (feature store, graph store) pair. -/
def loaderFromStores (fs : MyFeatureStore) (gs : MyGraphStore) (p : LoaderParams)
    (seedRel : EdgeKey) (bs : Nat) : List Batch :=
  heteroLoaderBatches (contentOfStores fs gs) p seedRel bs

/-- The string representation of a loader (`str(loader)` is the constant
`LinkNeighborLoader()` in the tests, whatever the backend). -/
def loaderReprOf (c : HeteroContent) : String :=
  match c with
  | _ => "LinkNeighborLoader()"

/-- Populate the in-memory data object with the given tensors by attribute
assignment, as the equivalence test does. -/
def setupData (xs : List (String × List Int)) (es : List (EdgeKey × List (Nat × Nat))) :
    HeteroDataM :=
  { nodeX := xs, edgeIdx := es }

/-- Populate a fresh (feature store, graph store) pair with the same tensors
through `put_tensor` / `put_edge_index`, as the equivalence test does. -/
def setupStores (xs : List (String × List Int)) (es : List (EdgeKey × List (Nat × Nat))) :
    MyFeatureStore × MyGraphStore :=
  (xs.foldl (fun fs q => put_tensor fs q.1 "x" q.2) { tensors := [] },
   es.foldl (fun gs q => put_edge_index gs q.1 q.2) { gsEdges := [] })

/-! ### Derived notions used by the theorems -/

/-- The four-part sampler invariant: sampled node ids are valid, the local
numbering is duplicate-free, every sampled edge is a graph edge carried with
its edge id, and both endpoints of every sampled edge are sampled nodes. -/
def SInv (g : Graph) (st : SState) : Prop :=
  (∀ v ∈ st.nodes, v < g.num_nodes) ∧ st.nodes.Nodup ∧
    (∀ e ∈ st.edges, e ∈ edgesWithId g) ∧
    (∀ e ∈ st.edges, e.2.1 ∈ st.nodes ∧ e.2.2 ∈ st.nodes)

/-- One unrestricted expansion step of the reachable set: the set itself plus
every endpoint of every edge incident to it. -/
def nbrStep (g : Graph) (dir : Bool) (s : List Nat) : List Nat :=
  s ++ (s.map (fun v => ((incident g dir v).map (fun e => [e.2.1, e.2.2])).flatten)).flatten

/-- The nodes reachable from `s` in at most `d` hops along incident edges. -/
def reachList (g : Graph) (dir : Bool) (s : List Nat) : Nat → List Nat
  | 0 => s
  | d + 1 => nbrStep g dir (reachList g dir s d)

/-- The times, in the sliced time attribute, of the nodes referenced by a
temporal batch's `edge_label_index` (the seed nodes). -/
def seedTimesOf (b : BatchT) : List Int :=
  ((b.edge_label_index.map (fun e => [e.1, e.2])).flatten).map (fun i => b.time.getD i 0)

/-! ### Basic lemmas about the sampling primitives -/

theorem mem_insertNode {cur : List Nat} {v a : Nat} :
    a ∈ insertNode cur v ↔ a ∈ cur ∨ a = v := by
  unfold insertNode
  split
  · rename_i h
    constructor
    · exact Or.inl
    · rintro (h1 | rfl)
      · exact h1
      · exact h
  · simp [List.mem_append]

theorem mem_addNodes : ∀ (ns cur : List Nat) (a : Nat),
    a ∈ addNodes cur ns ↔ a ∈ cur ∨ a ∈ ns := by
  intro ns
  induction ns with
  | nil => simp [addNodes]
  | cons h t ih =>
    intro cur a
    have : addNodes cur (h :: t) = addNodes (insertNode cur h) t := rfl
    rw [this, ih, mem_insertNode]
    simp [or_assoc]

theorem nodup_insertNode {cur : List Nat} {v : Nat} (h : cur.Nodup) :
    (insertNode cur v).Nodup := by
  unfold insertNode
  split
  · exact h
  · rename_i hv
    simp [List.nodup_append, h, hv]

theorem nodup_addNodes : ∀ (ns cur : List Nat), cur.Nodup → (addNodes cur ns).Nodup := by
  intro ns
  induction ns with
  | nil => intro cur h; exact h
  | cons h t ih =>
    intro cur hc
    exact ih (insertNode cur h) (nodup_insertNode hc)

theorem takeFan_subset {α : Type} {k : Int} {l : List α} : ∀ a ∈ takeFan k l, a ∈ l := by
  intro a ha
  unfold takeFan at ha
  split at ha
  · exact ha
  · exact List.take_subset _ _ ha

theorem length_takeFan_le {α : Type} {k : Int} {l : List α} (h : 0 ≤ k) :
    (takeFan k l).length ≤ k.toNat := by
  unfold takeFan
  split
  · omega
  · calc (l.take k.toNat).length = min k.toNat l.length := List.length_take _ _
    _ ≤ k.toNat := Nat.min_le_left _ _

theorem takeFan_of_neg {α : Type} {k : Int} {l : List α} (h : k < 0) : takeFan k l = l := by
  simp [takeFan, h]

theorem edgesWithId_spec {g : Graph} {e : Nat × Nat × Nat} (h : e ∈ edgesWithId g) :
    e.1 < g.edges.length ∧ (e.2.1, e.2.2) ∈ g.edges := by
  unfold edgesWithId at h
  rcases List.mem_map.1 h with ⟨i, hi, he⟩
  rcases List.mem_range.1 hi with hlt
  subst he
  refine ⟨hlt, ?_⟩
  have : g.edges.getD i (0, 0) ∈ g.edges := by
    rw [List.getD_eq_getElem g.edges (0,0) hlt]
    exact List.getElem_mem hlt
  simpa using this

theorem mem_edgesWithId_of_mem {g : Graph} {pe : Nat × Nat} (h : pe ∈ g.edges) :
    ∃ i, (i, pe.1, pe.2) ∈ edgesWithId g := by
  rcases List.mem_iff_get.1 h with ⟨⟨i, hi⟩, hget⟩
  refine ⟨i, ?_⟩
  unfold edgesWithId
  refine List.mem_map.2 ⟨i, List.mem_range.2 hi, ?_⟩
  have hd : g.edges.getD i (0, 0) = pe := by
    rw [List.getD_eq_getElem g.edges (0,0) hi]
    simpa using hget
  rw [hd]

theorem incident_subset {g : Graph} {dir : Bool} {v : Nat} :
    ∀ e ∈ incident g dir v, e ∈ edgesWithId g := by
  intro e he
  exact List.mem_of_mem_filter he

theorem mem_incident {g : Graph} {dir : Bool} {v : Nat} {e : Nat × Nat × Nat}
    (he : e ∈ edgesWithId g) (hv : e.2.2 = v) : e ∈ incident g dir v := by
  unfold incident
  refine List.mem_filter.2 ⟨he, ?_⟩
  cases dir <;> simp [hv]

theorem chunksOfAux_subset {α : Type} :
    ∀ (fuel n : Nat) (l c : List α), c ∈ chunksOfAux fuel n l → ∀ a ∈ c, a ∈ l := by
  intro fuel
  induction fuel with
  | zero =>
    intro n l c hc a ha
    unfold chunksOfAux at hc
    split at hc
    · simp at hc
    · simp at hc
      subst hc
      exact ha
  | succ f ih =>
    intro n l c hc a ha
    unfold chunksOfAux at hc
    split at hc
    · simp at hc
    · split at hc
      · simp at hc
        subst hc
        exact ha
      · rcases List.mem_cons.1 hc with h1 | h2
        · subst h1
          exact List.take_subset _ _ ha
        · exact List.drop_subset _ _ (ih n (l.drop n) c h2 a ha)

theorem chunksOf_subset {α : Type} {n : Nat} {l c : List α} (hc : c ∈ chunksOf n l) :
    ∀ a ∈ c, a ∈ l :=
  chunksOfAux_subset l.length n l c hc

theorem chunksOfAux_length {α : Type} :
    ∀ (fuel n : Nat) (l c : List α), l.length ≤ fuel → 0 < n → n ∣ l.length →
      c ∈ chunksOfAux fuel n l → c.length = n := by
  intro fuel
  induction fuel with
  | zero =>
    intro n l c hle hn hdvd hc
    have : l = [] := List.length_eq_zero.1 (Nat.le_zero.1 hle)
    subst this
    simp [chunksOfAux] at hc
  | succ f ih =>
    intro n l c hle hn hdvd hc
    unfold chunksOfAux at hc
    split at hc
    · simp at hc
    · rename_i hne
      have hlpos : 0 < l.length := by
        cases l
        · simp at hne
        · simp
      split at hc
      · omega
      · have hnle : n ≤ l.length := Nat.le_of_dvd hlpos hdvd
        rcases List.mem_cons.1 hc with h1 | h2
        · subst h1
          rw [List.length_take]
          omega
        · refine ih n (l.drop n) c ?_ hn ?_ h2
          · rw [List.length_drop]
            omega
          · rw [List.length_drop]
            exact Nat.dvd_sub' hdvd dvd_rfl

theorem chunksOf_length {α : Type} {n : Nat} {l c : List α} (hn : 0 < n)
    (hdvd : n ∣ l.length) (hc : c ∈ chunksOf n l) : c.length = n :=
  chunksOfAux_length l.length n l c (Nat.le_refl _) hn hdvd hc

theorem sampleLoop_cons (g : Graph) (dir : Bool) (k : Int) (ks : List Int)
    (f : List Nat) (st : SState) :
    sampleLoop g dir (k :: ks) f st =
      ((sampleLoop g dir ks ((addNodes st.nodes (hopNodes g dir k f)).drop st.nodes.length)
        { nodes := addNodes st.nodes (hopNodes g dir k f),
          edges := st.edges ++ hopEdges g dir k f }).1,
       hopContrib g dir k f ::
        (sampleLoop g dir ks ((addNodes st.nodes (hopNodes g dir k f)).drop st.nodes.length)
          { nodes := addNodes st.nodes (hopNodes g dir k f),
            edges := st.edges ++ hopEdges g dir k f }).2) := rfl

theorem mem_hopEdges {g : Graph} {dir : Bool} {k : Int} {f : List Nat}
    {e : Nat × Nat × Nat} :
    e ∈ hopEdges g dir k f ↔ ∃ v ∈ f, e ∈ takeFan k (incident g dir v) := by
  unfold hopEdges hopContrib
  constructor
  · intro h
    rcases List.mem_flatten.1 h with ⟨l, hl, hel⟩
    rcases List.mem_map.1 hl with ⟨pr, hpr, hsnd⟩
    rcases List.mem_map.1 hpr with ⟨v, hv, hpv⟩
    refine ⟨v, hv, ?_⟩
    subst hpv
    rw [← hsnd] at hel
    exact hel
  · rintro ⟨v, hv, he⟩
    refine List.mem_flatten.2 ⟨takeFan k (incident g dir v), ?_, he⟩
    refine List.mem_map.2 ⟨(v, takeFan k (incident g dir v)), ?_, rfl⟩
    exact List.mem_map.2 ⟨v, hv, rfl⟩

theorem mem_hopNodes {g : Graph} {dir : Bool} {k : Int} {f : List Nat} {a : Nat} :
    a ∈ hopNodes g dir k f ↔ ∃ e ∈ hopEdges g dir k f, a = e.2.1 ∨ a = e.2.2 := by
  unfold hopNodes
  constructor
  · intro h
    rcases List.mem_flatten.1 h with ⟨l, hl, hal⟩
    rcases List.mem_map.1 hl with ⟨e, he, hle⟩
    subst hle
    simp at hal
    exact ⟨e, he, hal⟩
  · rintro ⟨e, he, ha⟩
    refine List.mem_flatten.2 ⟨[e.2.1, e.2.2], List.mem_map.2 ⟨e, he, rfl⟩, ?_⟩
    rcases ha with rfl | rfl
    · simp
    · simp

theorem edgesWithId_endpoints_lt {g : Graph} (hval : g.Valid) {e : Nat × Nat × Nat}
    (he : e ∈ edgesWithId g) : e.2.1 < g.num_nodes ∧ e.2.2 < g.num_nodes := by
  rcases edgesWithId_spec he with ⟨-, hmem⟩
  exact hval.2.2 _ hmem

theorem sampleLoop_inv {g : Graph} {dir : Bool} (hval : g.Valid) :
    ∀ (ks : List Int) (f : List Nat) (st : SState), SInv g st →
      (∀ v ∈ f, v < g.num_nodes) → SInv g (sampleLoop g dir ks f st).1 := by
  intro ks
  induction ks with
  | nil => intro f st hst _; exact hst
  | cons k ks ih =>
    intro f st hst hf
    rcases hst with ⟨hlt, hnd, hsrc, hends⟩
    rw [sampleLoop_cons]
    refine ih _ _ ⟨?_, ?_, ?_, ?_⟩ ?_
    · intro v hv
      rcases (mem_addNodes _ _ _).1 hv with h1 | h2
      · exact hlt v h1
      · rcases mem_hopNodes.1 h2 with ⟨e, he, hae⟩
        rcases mem_hopEdges.1 he with ⟨w, _, het⟩
        have hew : e ∈ edgesWithId g := incident_subset _ (takeFan_subset _ het)
        rcases edgesWithId_endpoints_lt hval hew with ⟨h1', h2'⟩
        rcases hae with rfl | rfl
        · exact h1'
        · exact h2'
    · exact nodup_addNodes _ _ hnd
    · intro e he
      rcases List.mem_append.1 he with h1 | h2
      · exact hsrc e h1
      · rcases mem_hopEdges.1 h2 with ⟨w, _, het⟩
        exact incident_subset _ (takeFan_subset _ het)
    · intro e he
      rcases List.mem_append.1 he with h1 | h2
      · rcases hends e h1 with ⟨ha, hb⟩
        exact ⟨(mem_addNodes _ _ _).2 (Or.inl ha), (mem_addNodes _ _ _).2 (Or.inl hb)⟩
      · constructor
        · refine (mem_addNodes _ _ _).2 (Or.inr ?_)
          exact mem_hopNodes.2 ⟨e, h2, Or.inl rfl⟩
        · refine (mem_addNodes _ _ _).2 (Or.inr ?_)
          exact mem_hopNodes.2 ⟨e, h2, Or.inr rfl⟩
    · intro v hv
      have hsub : v ∈ addNodes st.nodes (hopNodes g dir k f) :=
        List.drop_subset _ _ hv
      rcases (mem_addNodes _ _ _).1 hsub with h1 | h2
      · exact hlt v h1
      · rcases mem_hopNodes.1 h2 with ⟨e, he, hae⟩
        rcases mem_hopEdges.1 he with ⟨w, _, het⟩
        have hew : e ∈ edgesWithId g := incident_subset _ (takeFan_subset _ het)
        rcases edgesWithId_endpoints_lt hval hew with ⟨h1', h2'⟩
        rcases hae with rfl | rfl
        · exact h1'
        · exact h2'

theorem sampleLoop_edges_extend {g : Graph} {dir : Bool} :
    ∀ (ks : List Int) (f : List Nat) (st : SState),
      ∃ r, (sampleLoop g dir ks f st).1.edges = st.edges ++ r := by
  intro ks
  induction ks with
  | nil => intro f st; exact ⟨[], by simp [sampleLoop]⟩
  | cons k ks ih =>
    intro f st
    rw [sampleLoop_cons]
    rcases ih ((addNodes st.nodes (hopNodes g dir k f)).drop st.nodes.length)
      { nodes := addNodes st.nodes (hopNodes g dir k f),
        edges := st.edges ++ hopEdges g dir k f } with ⟨r, hr⟩
    exact ⟨hopEdges g dir k f ++ r, by simp [hr]⟩

theorem sampleLoop_nodes_extend {g : Graph} {dir : Bool} :
    ∀ (ks : List Int) (f : List Nat) (st : SState) (v : Nat),
      v ∈ st.nodes → v ∈ (sampleLoop g dir ks f st).1.nodes := by
  intro ks
  induction ks with
  | nil => intro f st v hv; exact hv
  | cons k ks ih =>
    intro f st v hv
    rw [sampleLoop_cons]
    exact ih _ _ v ((mem_addNodes _ _ _).2 (Or.inl hv))

theorem sampleLoop_trace_length {g : Graph} {dir : Bool} :
    ∀ (ks : List Int) (f : List Nat) (st : SState),
      (sampleLoop g dir ks f st).2.length = ks.length := by
  intro ks
  induction ks with
  | nil => intro f st; rfl
  | cons k ks ih =>
    intro f st
    rw [sampleLoop_cons]
    simp [ih]

theorem sampleLoop_trace_spec {g : Graph} {dir : Bool} :
    ∀ (ks : List Int) (f : List Nat) (st : SState) (h : Nat)
      (pr : Nat × List (Nat × Nat × Nat)),
      pr ∈ (sampleLoop g dir ks f st).2.getD h [] →
        pr.2 = takeFan (ks.getD h 0) (incident g dir pr.1) := by
  intro ks
  induction ks with
  | nil =>
    intro f st h pr hpr
    simp [sampleLoop] at hpr
  | cons k ks ih =>
    intro f st h pr hpr
    match h with
    | 0 =>
      rw [sampleLoop_cons] at hpr
      simp only [List.getD_cons_zero] at hpr ⊢
      unfold hopContrib at hpr
      rcases List.mem_map.1 hpr with ⟨v, hv, hpv⟩
      subst hpv
      rfl
    | Nat.succ h' =>
      rw [sampleLoop_cons] at hpr
      simp only [List.getD_cons_succ] at hpr ⊢
      exact ih _ _ h' pr hpr

theorem mem_nbrStep_left {g : Graph} {dir : Bool} {s : List Nat} {a : Nat}
    (h : a ∈ s) : a ∈ nbrStep g dir s :=
  List.mem_append_left _ h

theorem mem_nbrStep_of_incident {g : Graph} {dir : Bool} {s : List Nat}
    {v a : Nat} {e : Nat × Nat × Nat} (hv : v ∈ s) (he : e ∈ incident g dir v)
    (ha : a = e.2.1 ∨ a = e.2.2) : a ∈ nbrStep g dir s := by
  refine List.mem_append_right _ ?_
  refine List.mem_flatten.2 ⟨((incident g dir v).map (fun e => [e.2.1, e.2.2])).flatten,
    List.mem_map.2 ⟨v, hv, rfl⟩, ?_⟩
  refine List.mem_flatten.2 ⟨[e.2.1, e.2.2], List.mem_map.2 ⟨e, he, rfl⟩, ?_⟩
  rcases ha with rfl | rfl
  · simp
  · simp

theorem reachList_shift {g : Graph} {dir : Bool} {s : List Nat} :
    ∀ n, reachList g dir (nbrStep g dir s) n = reachList g dir s (n + 1) := by
  intro n
  induction n with
  | zero => rfl
  | succ n ih =>
    show nbrStep g dir (reachList g dir (nbrStep g dir s) n) = _
    rw [ih]
    rfl

theorem sampleLoop_reach {g : Graph} {dir : Bool} :
    ∀ (ks : List Int) (f : List Nat) (st : SState) (S : List Nat),
      (∀ v ∈ f, v ∈ S) → (∀ v ∈ st.nodes, v ∈ S) →
      ∀ v ∈ (sampleLoop g dir ks f st).1.nodes, v ∈ reachList g dir S ks.length := by
  intro ks
  induction ks with
  | nil => intro f st S _ hst v hv; exact hst v hv
  | cons k ks ih =>
    intro f st S hf hst v hv
    rw [sampleLoop_cons] at hv
    have hnodes2 : ∀ w ∈ addNodes st.nodes (hopNodes g dir k f), w ∈ nbrStep g dir S := by
      intro w hw
      rcases (mem_addNodes _ _ _).1 hw with h1 | h2
      · exact mem_nbrStep_left (hst w h1)
      · rcases mem_hopNodes.1 h2 with ⟨e, he, hae⟩
        rcases mem_hopEdges.1 he with ⟨u, hu, het⟩
        exact mem_nbrStep_of_incident (hf u hu) (takeFan_subset _ het) hae
    have hrec := ih ((addNodes st.nodes (hopNodes g dir k f)).drop st.nodes.length)
      { nodes := addNodes st.nodes (hopNodes g dir k f),
        edges := st.edges ++ hopEdges g dir k f } (nbrStep g dir S)
      (fun w hw => hnodes2 w (List.drop_subset _ _ hw)) hnodes2 v hv
    rw [reachList_shift] at hrec
    exact hrec

/-! ### Lemmas for the temporal sampler -/

theorem sampleLoopT_cons (g : Graph) (dir : Bool) (time : List Int) (k : Int)
    (ks : List Int) (f : List (Nat × Int)) (st : List Nat × List (Nat × Nat × Nat)) :
    sampleLoopT g dir time (k :: ks) f st =
      sampleLoopT g dir time ks (addNodesT st.1 (hopNodesT g dir time k f)).2
        ((addNodesT st.1 (hopNodesT g dir time k f)).1,
          st.2 ++ (hopEdgesT g dir time k f).map Prod.fst) := rfl

theorem addNodesT_foldl_spec :
    ∀ (ns : List (Nat × Int)) (acc : List Nat × List (Nat × Int)),
      (∀ a, a ∈ (ns.foldl insertNodeT acc).1 → a ∈ acc.1 ∨ a ∈ ns.map Prod.fst) ∧
      (∀ p, p ∈ (ns.foldl insertNodeT acc).2 → p ∈ acc.2 ∨ p ∈ ns) ∧
      (∀ a, a ∈ acc.1 → a ∈ (ns.foldl insertNodeT acc).1) := by
  intro ns
  induction ns with
  | nil => intro acc; exact ⟨fun a h => Or.inl h, fun p h => Or.inl h, fun a h => h⟩
  | cons q t ih =>
    intro acc
    have hstep : (q :: t).foldl insertNodeT acc = t.foldl insertNodeT (insertNodeT acc q) := rfl
    rw [hstep]
    rcases ih (insertNodeT acc q) with ⟨ih1, ih2, ih3⟩
    have hins1 : ∀ a, a ∈ (insertNodeT acc q).1 → a ∈ acc.1 ∨ a = q.1 := by
      intro a ha
      unfold insertNodeT at ha
      split at ha
      · exact Or.inl ha
      · rcases List.mem_append.1 ha with h1 | h2
        · exact Or.inl h1
        · simp at h2
          exact Or.inr h2
    have hins2 : ∀ p, p ∈ (insertNodeT acc q).2 → p ∈ acc.2 ∨ p = q := by
      intro p hp
      unfold insertNodeT at hp
      split at hp
      · exact Or.inl hp
      · rcases List.mem_append.1 hp with h1 | h2
        · exact Or.inl h1
        · simp at h2
          exact Or.inr h2
    have hins3 : ∀ a, a ∈ acc.1 → a ∈ (insertNodeT acc q).1 := by
      intro a ha
      unfold insertNodeT
      split
      · exact ha
      · exact List.mem_append_left _ ha
    refine ⟨?_, ?_, ?_⟩
    · intro a ha
      rcases ih1 a ha with h1 | h2
      · rcases hins1 a h1 with h1' | h1'
        · exact Or.inl h1'
        · exact Or.inr (by simp [h1'])
      · exact Or.inr (by simp only [List.map_cons]; exact List.mem_cons_of_mem _ h2)
    · intro p hp
      rcases ih2 p hp with h1 | h2
      · rcases hins2 p h1 with h1' | h1'
        · exact Or.inl h1'
        · exact Or.inr (by simp [h1'])
      · exact Or.inr (List.mem_cons_of_mem _ h2)
    · intro a ha
      exact ih3 a (hins3 a ha)

theorem mem_addNodesT_fst {cur : List Nat} {ns : List (Nat × Int)} {a : Nat}
    (h : a ∈ (addNodesT cur ns).1) : a ∈ cur ∨ a ∈ ns.map Prod.fst :=
  (addNodesT_foldl_spec ns (cur, [])).1 a h

theorem mem_addNodesT_snd {cur : List Nat} {ns : List (Nat × Int)} {p : Nat × Int}
    (h : p ∈ (addNodesT cur ns).2) : p ∈ ns := by
  rcases (addNodesT_foldl_spec ns (cur, [])).2.1 p h with h1 | h2
  · simp at h1
  · exact h2

theorem mem_addNodesT_of_mem {cur : List Nat} {ns : List (Nat × Int)} {a : Nat}
    (h : a ∈ cur) : a ∈ (addNodesT cur ns).1 :=
  (addNodesT_foldl_spec ns (cur, [])).2.2 a h

theorem mem_hopEdgesT {g : Graph} {dir : Bool} {time : List Int} {k : Int}
    {f : List (Nat × Int)} {q : (Nat × Nat × Nat) × Int} :
    q ∈ hopEdgesT g dir time k f ↔
      ∃ p ∈ f, q.1 ∈ takeFan k (incidentT g dir time p.2 p.1) ∧ q.2 = p.2 := by
  unfold hopEdgesT
  constructor
  · intro h
    rcases List.mem_flatten.1 h with ⟨l, hl, hql⟩
    rcases List.mem_map.1 hl with ⟨p, hp, hlp⟩
    subst hlp
    rcases List.mem_map.1 hql with ⟨e, he, hqe⟩
    subst hqe
    exact ⟨p, hp, he, rfl⟩
  · rintro ⟨p, hp, hq1, hq2⟩
    refine List.mem_flatten.2
      ⟨(takeFan k (incidentT g dir time p.2 p.1)).map (fun e => (e, p.2)),
        List.mem_map.2 ⟨p, hp, rfl⟩, ?_⟩
    refine List.mem_map.2 ⟨q.1, hq1, ?_⟩
    rcases q with ⟨e, t⟩
    simp at hq2
    simp [hq2]

theorem mem_hopNodesT {g : Graph} {dir : Bool} {time : List Int} {k : Int}
    {f : List (Nat × Int)} {r : Nat × Int} :
    r ∈ hopNodesT g dir time k f ↔
      ∃ q ∈ hopEdgesT g dir time k f, r = (q.1.2.1, q.2) ∨ r = (q.1.2.2, q.2) := by
  unfold hopNodesT
  constructor
  · intro h
    rcases List.mem_flatten.1 h with ⟨l, hl, hrl⟩
    rcases List.mem_map.1 hl with ⟨q, hq, hlq⟩
    subst hlq
    simp at hrl
    exact ⟨q, hq, hrl⟩
  · rintro ⟨q, hq, hr⟩
    refine List.mem_flatten.2 ⟨[(q.1.2.1, q.2), (q.1.2.2, q.2)],
      List.mem_map.2 ⟨q, hq, rfl⟩, ?_⟩
    rcases hr with rfl | rfl
    · simp
    · simp

theorem incidentT_time {g : Graph} {dir : Bool} {time : List Int} {tmax : Int}
    {v : Nat} {e : Nat × Nat × Nat} (h : e ∈ incidentT g dir time tmax v) :
    time.getD e.2.1 0 ≤ tmax ∧ time.getD e.2.2 0 ≤ tmax := by
  unfold incidentT at h
  have := (List.mem_filter.1 h).2
  simp only [Bool.and_eq_true, decide_eq_true_eq] at this
  exact this

theorem sampleLoopT_time_bound {g : Graph} {dir : Bool} {time : List Int} {M : Int} :
    ∀ (ks : List Int) (f : List (Nat × Int)) (st : List Nat × List (Nat × Nat × Nat)),
      (∀ p ∈ f, p.2 ≤ M) → (∀ v ∈ st.1, time.getD v 0 ≤ M) →
      ∀ v ∈ (sampleLoopT g dir time ks f st).1, time.getD v 0 ≤ M := by
  intro ks
  induction ks with
  | nil => intro f st _ hst v hv; exact hst v hv
  | cons k ks ih =>
    intro f st hf hst v hv
    rw [sampleLoopT_cons] at hv
    have hnew : ∀ r : Nat × Int, r ∈ hopNodesT g dir time k f →
        r.2 ≤ M ∧ time.getD r.1 0 ≤ M := by
      intro r hr
      rcases mem_hopNodesT.1 hr with ⟨q, hq, hrq⟩
      rcases mem_hopEdgesT.1 hq with ⟨p, hp, hq1, hq2⟩
      have hpM : p.2 ≤ M := hf p hp
      have htimes := incidentT_time (takeFan_subset _ hq1)
      rcases hrq with rfl | rfl
      · exact ⟨by simpa [hq2] using hpM, le_trans (by simpa using htimes.1) hpM⟩
      · exact ⟨by simpa [hq2] using hpM, le_trans (by simpa using htimes.2) hpM⟩
    refine ih _ _ ?_ ?_ v hv
    · intro p hp
      exact (hnew p (mem_addNodesT_snd hp)).1
    · intro w hw
      rcases mem_addNodesT_fst hw with h1 | h2
      · exact hst w h1
      · rcases List.mem_map.1 h2 with ⟨r, hr, hrw⟩
        subst hrw
        exact (hnew r hr).2

theorem sampleLoopT_nodes_extend {g : Graph} {dir : Bool} {time : List Int} :
    ∀ (ks : List Int) (f : List (Nat × Int)) (st : List Nat × List (Nat × Nat × Nat))
      (v : Nat), v ∈ st.1 → v ∈ (sampleLoopT g dir time ks f st).1 := by
  intro ks
  induction ks with
  | nil => intro f st v hv; exact hv
  | cons k ks ih =>
    intro f st v hv
    rw [sampleLoopT_cons]
    exact ih _ _ v (mem_addNodesT_of_mem hv)

/-! ### Order and indexing helpers -/

theorem le_foldl_max : ∀ (l : List Int) (b : Int), b ≤ l.foldl max b := by
  intro l
  induction l with
  | nil => intro b; exact le_refl b
  | cons a t ih =>
    intro b
    calc b ≤ max b a := le_max_left b a
    _ ≤ t.foldl max (max b a) := ih (max b a)

theorem mem_le_foldl_max : ∀ (l : List Int) (b a : Int), a ∈ l → a ≤ l.foldl max b := by
  intro l
  induction l with
  | nil => intro b a ha; simp at ha
  | cons c t ih =>
    intro b a ha
    rcases List.mem_cons.1 ha with rfl | h2
    · calc a ≤ max b a := le_max_right b a
      _ ≤ t.foldl max (max b a) := le_foldl_max t (max b a)
    · exact ih (max b c) a h2

theorem le_maxIntList {l : List Int} {a : Int} (h : a ∈ l) : a ≤ maxIntList l := by
  match l with
  | [] => simp at h
  | c :: t =>
    rcases List.mem_cons.1 h with rfl | h2
    · exact le_foldl_max t a
    · exact mem_le_foldl_max t c a h2

theorem foldl_max_mem : ∀ (l : List Int) (b : Int), l.foldl max b = b ∨ l.foldl max b ∈ l := by
  intro l
  induction l with
  | nil => intro b; exact Or.inl rfl
  | cons c t ih =>
    intro b
    rcases ih (max b c) with h1 | h2
    · rcases max_choice b c with hm | hm
      · exact Or.inl (by rw [List.foldl_cons, h1, hm])
      · refine Or.inr ?_
        rw [List.foldl_cons, h1, hm]
        exact List.mem_cons_self _ _
    · exact Or.inr (List.mem_cons_of_mem _ h2)

theorem maxIntList_mem {l : List Int} (h : l ≠ []) : maxIntList l ∈ l := by
  match l with
  | [] => exact absurd rfl h
  | c :: t =>
    rcases foldl_max_mem t c with h1 | h2
    · rw [maxIntList, h1]
      exact List.mem_cons_self _ _
    · exact List.mem_cons_of_mem _ h2

theorem getD_mem {α : Type} {l : List α} {n : Nat} (h : n < l.length) (d : α) :
    l.getD n d ∈ l := by
  rw [List.getD_eq_getElem l d h]
  exact List.getElem_mem h

theorem getD_indexOf {l : List Nat} {a : Nat} (h : a ∈ l) (d : Nat) :
    l.getD (l.indexOf a) d = a := by
  have hlt : l.indexOf a < l.length := List.indexOf_lt_length.2 h
  rw [List.getD_eq_getElem l d hlt]
  exact List.getElem_indexOf hlt

theorem getD_map {α β : Type} (f : α → β) {l : List α} {n : Nat} (h : n < l.length)
    (d : α) (db : β) : (l.map f).getD n db = f (l.getD n d) := by
  have hm : n < (l.map f).length := by simpa using h
  rw [List.getD_eq_getElem _ db hm, List.getD_eq_getElem l d h]
  simp

theorem length_le_of_nodup_lt {l : List Nat} {n : Nat} (hnd : l.Nodup)
    (hlt : ∀ v ∈ l, v < n) : l.length ≤ n := by
  have hcard : l.toFinset.card = l.length := List.toFinset_card_of_nodup hnd
  have hsub : l.toFinset ⊆ Finset.range n := by
    intro v hv
    exact Finset.mem_range.2 (hlt v (List.mem_toFinset.1 hv))
  calc l.length = l.toFinset.card := hcard.symm
  _ ≤ (Finset.range n).card := Finset.card_le_card hsub
  _ = n := Finset.card_range n

/-! ### Claim theorems -/

/-- C7: the global pooling reducers are stateless, deterministic functions —
two calls of `global_add_pool`, `global_mean_pool` or `global_max_pool` on
equal inputs `x`, `batch` and `size` return equal outputs. In this pure
embedding the functions consume and produce immutable values, so neither
call can mutate `x`, `batch` or any other state; the equality of results
captures determinism. -/
theorem pool_calls_deterministic (x1 x2 : Tensor) (b1 b2 : Option (List Nat))
    (s1 s2 : Option Nat) (hx : x1 = x2) (hb : b1 = b2) (hs : s1 = s2) :
    global_add_pool x1 b1 s1 = global_add_pool x2 b2 s2 ∧
    global_mean_pool x1 b1 s1 = global_mean_pool x2 b2 s2 ∧
    global_max_pool x1 b1 s1 = global_max_pool x2 b2 s2 := by
  subst hx
  subst hb
  subst hs
  exact ⟨rfl, rfl, rfl⟩

/-- Witness for C7 at a concrete 2×2 input with a batch vector. -/
theorem pool_calls_deterministic_witness :
    global_add_pool { shape := [2, 2], data := [1, 2, 3, 4] } (some [0, 1]) none =
      global_add_pool { shape := [2, 2], data := [1, 2, 3, 4] } (some [0, 1]) none ∧
    global_mean_pool { shape := [2, 2], data := [1, 2, 3, 4] } (some [0, 1]) none =
      global_mean_pool { shape := [2, 2], data := [1, 2, 3, 4] } (some [0, 1]) none ∧
    global_max_pool { shape := [2, 2], data := [1, 2, 3, 4] } (some [0, 1]) none =
      global_max_pool { shape := [2, 2], data := [1, 2, 3, 4] } (some [0, 1]) none :=
  pool_calls_deterministic _ _ _ _ _ _ rfl rfl rfl

/-- C10: with `batch = None` each pooling reducer reduces over dimension `-2`
and keeps that dimension exactly when the input is 2-dimensional: a `(N, F)`
input yields a `(1, F)` output, and an input with any other number of
dimensions (at least 2) yields the shape with the node dimension removed,
e.g. `(B, N, F)` yields `(B, F)`. -/
theorem pool_none_shape (x : Tensor) (size : Option Nat) :
    (global_add_pool x none size).shape =
      (if x.shape.length = 2 then [1, x.shape.getD 1 1]
       else x.shape.take (x.shape.length - 2) ++ [x.shape.getD (x.shape.length - 1) 1]) ∧
    (global_mean_pool x none size).shape =
      (if x.shape.length = 2 then [1, x.shape.getD 1 1]
       else x.shape.take (x.shape.length - 2) ++ [x.shape.getD (x.shape.length - 1) 1]) ∧
    (global_max_pool x none size).shape =
      (if x.shape.length = 2 then [1, x.shape.getD 1 1]
       else x.shape.take (x.shape.length - 2) ++ [x.shape.getD (x.shape.length - 1) 1]) := by
  by_cases h2 : x.shape.length = 2
  · refine ⟨?_, ?_, ?_⟩ <;>
      simp [global_add_pool, global_mean_pool, global_max_pool, reduceDimNeg2, h2]
  · refine ⟨?_, ?_, ?_⟩ <;>
      simp [global_add_pool, global_mean_pool, global_max_pool, reduceDimNeg2, h2]

/-- C9: a `MultiAggregation` with exactly one aggregator returns that
aggregator's output unchanged for every combine mode — including modes
`combine` would reject — so `combine` is never invoked; with two or more
aggregators, `forward` is exactly `combine` applied to the per-aggregator
outputs. -/
theorem multi_forward_single (a : AggrKind) (mode : String) (x : Tensor)
    (index : Option (List Nat)) (dimSize : Option Nat) :
    MultiAggregation.forward { aggrs := [a], mode := mode } x index dimSize =
      .ok (aggrApply a x index dimSize) ∧
    ∀ m : MultiAggregation, 2 ≤ m.aggrs.length →
      MultiAggregation.forward m x index dimSize =
        combineMA m (m.aggrs.map (fun b => aggrApply b x index dimSize)) := by
  constructor
  · rfl
  · intro m hm
    unfold MultiAggregation.forward
    rw [if_pos]
    simpa using hm

/-- Witness for C9: a single-aggregator module with an unsupported combine
mode still returns the aggregator's output, and a two-aggregator module
dispatches to `combine`. -/
theorem multi_forward_single_witness :
    MultiAggregation.forward { aggrs := [.asum], mode := "bogus" }
      { shape := [2, 1], data := [1, 2] } none none =
      .ok (aggrApply .asum { shape := [2, 1], data := [1, 2] } none none) ∧
    MultiAggregation.forward { aggrs := [.asum, .amax], mode := "sum" }
      { shape := [2, 1], data := [1, 2] } none none =
      combineMA { aggrs := [.asum, .amax], mode := "sum" }
        ([.asum, .amax].map (fun b =>
          aggrApply b { shape := [2, 1], data := [1, 2] } none none)) :=
  ⟨(multi_forward_single .asum "bogus" { shape := [2, 1], data := [1, 2] } none none).1,
   (multi_forward_single .asum "bogus" { shape := [2, 1], data := [1, 2] } none none).2
     { aggrs := [.asum, .amax], mode := "sum" } (by decide)⟩

theorem initTail_error_iff (l : List AggrKind) (mode : String) (mk : ModeKwargs) :
    (∃ e, initTail l mode mk = .error e) ↔
      ((mode = "proj" ∨ mode = "attn") ∧
        (l.length = 1 ∨ pyAnd mk.in_channels mk.out_channels = none)) := by
  unfold initTail
  split
  · rename_i hm
    split
    · rename_i h1
      constructor
      · intro _; exact ⟨hm, Or.inl h1⟩
      · intro _; exact ⟨_, rfl⟩
    · rename_i h1
      split
      · rename_i hp
        constructor
        · intro _; exact ⟨hm, Or.inr hp⟩
        · intro _; exact ⟨_, rfl⟩
      · rename_i hp
        constructor
        · rintro ⟨e, he⟩; cases he
        · rintro ⟨-, h1' | hp'⟩
          · exact absurd h1' h1
          · exact absurd hp' hp
  · rename_i hm
    constructor
    · rintro ⟨e, he⟩; cases he
    · rintro ⟨hm', -⟩; exact absurd hm' hm

theorem initTail_ok_aggrs {l : List AggrKind} {mode : String} {mk : ModeKwargs}
    {m : MultiAggregation} (h : initTail l mode mk = .ok m) : m.aggrs = l := by
  unfold initTail at h
  split at h
  · split at h
    · cases h
    · split at h
      · cases h
      · cases h; rfl
  · cases h; rfl

/-- C8 (amended): `initMultiAggregation` raises `ValueError` exactly when
`aggrs` is not a list or tuple, or `aggrs` is empty, or `aggrs_kwargs` is
provided with a mismatched length, or the mode is `proj`/`attn` and either a
single aggregator is given or the Python expression
`(in_channels and out_channels) is None` holds — i.e. `in_channels` is
absent/None, or `in_channels` is truthy and `out_channels` is absent/None; a
supplied falsy non-None `in_channels` (such as `0`) bypasses the channel
check even when `out_channels` is missing. On success the instance holds
exactly `len(aggrs)` resolved sub-aggregators. -/
theorem initMulti_error_iff (a : AggrsArg)
    (ak : Option (List (List (String × Int)))) (mode : String) (mk : ModeKwargs) :
    ((∃ e, initMultiAggregation a ak mode mk = .error e) ↔
      ((∃ t, a = .notSeq t) ∨
        (∃ l, a = .list l ∧
          (l = [] ∨
           (∃ ks, ak = some ks ∧ l.length ≠ ks.length) ∨
           ((mode = "proj" ∨ mode = "attn") ∧
             (l.length = 1 ∨ pyAnd mk.in_channels mk.out_channels = none)))))) ∧
    (∀ m l, a = .list l → initMultiAggregation a ak mode mk = .ok m →
      m.aggrs.length = l.length) := by
  constructor
  · cases a with
    | notSeq t =>
      constructor
      · intro _; exact Or.inl ⟨t, rfl⟩
      · intro _; exact ⟨_, rfl⟩
    | list l =>
      have hnot : ¬ ∃ t, AggrsArg.list l = AggrsArg.notSeq t := by
        rintro ⟨t, ht⟩; cases ht
      show (∃ e, initMultiAggregation (.list l) ak mode mk = .error e) ↔ _
      unfold initMultiAggregation
      by_cases hl : l.length = 0
      · have hle : l = [] := List.length_eq_zero.1 hl
        simp only [hl, if_true, if_pos]
        constructor
        · intro _; exact Or.inr ⟨l, rfl, Or.inl hle⟩
        · intro _; exact ⟨_, rfl⟩
      · simp only [hl, if_false]
        cases ak with
        | none =>
          rw [initTail_error_iff]
          constructor
          · intro h
            exact Or.inr ⟨l, rfl, Or.inr (Or.inr h)⟩
          · rintro (h | ⟨l', hl', h⟩)
            · exact absurd h hnot
            · cases hl'
              rcases h with h1 | ⟨ks, hks, -⟩ | h3
              · exact absurd h1 (by intro he; exact hl (by rw [he]; rfl))
              · cases hks
              · exact h3
        | some ks =>
          by_cases hk : l.length = ks.length
          · simp only [hk, ne_eq, not_true_eq_false, if_false]
            rw [initTail_error_iff]
            constructor
            · intro h
              exact Or.inr ⟨l, rfl, Or.inr (Or.inr h)⟩
            · rintro (h | ⟨l', hl', h⟩)
              · exact absurd h hnot
              · cases hl'
                rcases h with h1 | ⟨ks', hks, hne⟩ | h3
                · exact absurd h1 (by intro he; exact hl (by rw [he]; rfl))
                · cases hks; exact absurd hk hne
                · exact h3
          · simp only [hk, ne_eq, not_false_eq_true, if_true]
            constructor
            · intro _
              exact Or.inr ⟨l, rfl, Or.inr (Or.inl ⟨ks, rfl, hk⟩)⟩
            · intro _
              exact ⟨_, rfl⟩
  · intro m l hal hok
    subst hal
    unfold initMultiAggregation at hok
    split at hok
    · cases hok
    · rename_i l' heq
      cases heq
      split at hok
      · cases hok
      · split at hok
        · rw [initTail_ok_aggrs hok]
        · split at hok
          · cases hok
          · rw [initTail_ok_aggrs hok]

/-- Counterexample for C8 as stated: with combine mode `proj`, a supplied but
falsy `in_channels = 0` and no `out_channels`, the claim demands a
`ValueError` (`out_channels` is not supplied), but the constructor's check
`(in_channels and out_channels) is None` evaluates on `0`, which is not
`None`, so construction succeeds. -/
theorem initMulti_counterexample :
    initMultiAggregation (.list [.amean, .amax]) none "proj"
      { in_channels := some (.int 0), out_channels := none, num_heads := none } =
      .ok { aggrs := [.amean, .amax], mode := "proj" } := rfl

/-- Witness for C8 (amended): an empty `aggrs` list is rejected. -/
theorem initMulti_error_iff_witness :
    ∃ e, initMultiAggregation (.list []) none "cat"
      { in_channels := none, out_channels := none, num_heads := none } = .error e :=
  ((initMulti_error_iff (.list []) none "cat"
      { in_channels := none, out_channels := none, num_heads := none }).1).mpr
    (Or.inr ⟨[], rfl, Or.inl rfl⟩)

theorem mem_seedNodesOf {seeds : List (Nat × Nat)} {v : Nat} :
    v ∈ seedNodesOf seeds ↔ ∃ e ∈ seeds, v = e.1 ∨ v = e.2 := by
  unfold seedNodesOf
  rw [mem_addNodes]
  constructor
  · intro h
    rcases h with h | h
    · simp at h
    · rcases List.mem_flatten.1 h with ⟨l, hl, hvl⟩
      rcases List.mem_map.1 hl with ⟨e, he, hle⟩
      subst hle
      simp at hvl
      exact ⟨e, he, hvl⟩
  · rintro ⟨e, he, hv⟩
    refine Or.inr (List.mem_flatten.2 ⟨[e.1, e.2], List.mem_map.2 ⟨e, he, rfl⟩, ?_⟩)
    rcases hv with rfl | rfl
    · simp
    · simp

theorem sampleSubgraph_inv (g : Graph) (dir : Bool) (numNb : List Int)
    (seeds : List (Nat × Nat)) (hval : g.Valid)
    (hs : ∀ e ∈ seeds, e.1 < g.num_nodes ∧ e.2 < g.num_nodes) :
    SInv g (sampleSubgraph g dir numNb seeds).1 := by
  unfold sampleSubgraph
  have hsn : ∀ v ∈ seedNodesOf seeds, v < g.num_nodes := by
    intro v hv
    rcases mem_seedNodesOf.1 hv with ⟨e, he, hve⟩
    rcases hs e he with ⟨h1, h2⟩
    rcases hve with rfl | rfl
    · exact h1
    · exact h2
  refine sampleLoop_inv hval numNb _ _ ⟨hsn, ?_, ?_, ?_⟩ hsn
  · exact nodup_addNodes _ _ List.nodup_nil
  · intro e he; simp at he
  · intro e he; simp at he

theorem buildBatch_inv (g : Graph) (p : LoaderParams) (seedPos : List (Nat × Nat))
    (ul : Option (List Int)) (hval : g.Valid) (hn : 0 < g.num_nodes)
    (hs : ∀ e ∈ seedPos, e.1 < g.num_nodes ∧ e.2 < g.num_nodes) :
    (∀ pr ∈ (buildBatch g p seedPos ul).edge_index,
      pr.1 < (buildBatch g p seedPos ul).num_nodes ∧
      pr.2 < (buildBatch g p seedPos ul).num_nodes) ∧
    (∀ v ∈ (buildBatch g p seedPos ul).x, v ∈ g.x) ∧
    (∀ v ∈ (buildBatch g p seedPos ul).edge_attr, v ∈ g.edge_attr) ∧
    (buildBatch g p seedPos ul).x.length ≤ g.num_nodes := by
  have hsAll : ∀ e ∈ seedPos ++ (List.range (p.neg_ratio * seedPos.length)).map (negPick g),
      e.1 < g.num_nodes ∧ e.2 < g.num_nodes := by
    intro e he
    rcases List.mem_append.1 he with h1 | h2
    · exact hs e h1
    · rcases List.mem_map.1 h2 with ⟨i, -, hie⟩
      subst hie
      exact ⟨Nat.mod_lt _ hn, Nat.mod_lt _ hn⟩
  rcases sampleSubgraph_inv g p.directed p.num_neighbors _ hval hsAll
    with ⟨hlt, hnd, hsrc, hends⟩
  simp only [buildBatch]
  refine ⟨?_, ?_, ?_, ?_⟩
  · intro pr hpr
    rcases List.mem_map.1 hpr with ⟨e, he, hpre⟩
    subst hpre
    rcases hends e he with ⟨h1, h2⟩
    simp only [List.length_map]
    exact ⟨List.indexOf_lt_length.2 h1, List.indexOf_lt_length.2 h2⟩
  · intro v hv
    rcases List.mem_map.1 hv with ⟨w, hw, hvw⟩
    subst hvw
    have hwlt : w < g.x.length := by
      rw [hval.1]
      exact hlt w hw
    exact getD_mem hwlt 0
  · intro v hv
    rcases List.mem_map.1 hv with ⟨e, he, hve⟩
    subst hve
    have helt : e.1 < g.edge_attr.length := by
      rw [hval.2.1]
      exact (edgesWithId_spec (hsrc e he)).1
    exact getD_mem helt 0
  · simp only [List.length_map]
    exact length_le_of_nodup_lt hnd hlt

/-- C1: every batch remaps sampled global node ids to a compact local
numbering and slices features accordingly — every `edge_index` entry is a
valid local id below `num_nodes`, every value of the sliced `x` (resp.
`edge_attr`) is drawn from the original graph's `x` (resp. `edge_attr`), and
`batch.x` has at most as many rows as the graph has nodes. (Entries are
naturals, so they are at least `0` by construction.) -/
theorem batch_remap_and_slice (g : Graph) (p : LoaderParams)
    (eli : List (Nat × Nat)) (el : Option (List Int)) (bs : Nat) (hval : g.Valid)
    (hn : 0 < g.num_nodes)
    (helo : ∀ e ∈ eli, e.1 < g.num_nodes ∧ e.2 < g.num_nodes) :
    ∀ b ∈ linkLoaderBatches g p eli el bs,
      (∀ pr ∈ b.edge_index, pr.1 < b.num_nodes ∧ pr.2 < b.num_nodes) ∧
      (∀ v ∈ b.x, v ∈ g.x) ∧
      (∀ v ∈ b.edge_attr, v ∈ g.edge_attr) ∧
      b.x.length ≤ g.num_nodes := by
  intro b hb
  unfold linkLoaderBatches at hb
  cases el with
  | none =>
    rcases List.mem_map.1 hb with ⟨c, hc, hbc⟩
    subst hbc
    exact buildBatch_inv g p c none hval hn (fun e he => helo e (chunksOf_subset hc e he))
  | some ls =>
    rcases List.mem_map.1 hb with ⟨c, hc, hbc⟩
    subst hbc
    refine buildBatch_inv g p (c.map Prod.fst) (some (c.map Prod.snd)) hval hn ?_
    intro e he
    rcases List.mem_map.1 he with ⟨pr, hpr, hpre⟩
    subst hpre
    exact helo pr.1 (List.of_mem_zip (chunksOf_subset hc pr hpr)).1

/-- Witness for C1 on a concrete 3-node graph with one seed edge,
instantiated at the first batch of the loader. -/
theorem batch_remap_and_slice_witness :
    (∀ pr ∈ ((linkLoaderBatches
        { num_nodes := 3, edges := [(1, 2), (0, 2)], x := [10, 11, 12],
          edge_attr := [100, 101] }
        { num_neighbors := [-1], directed := true, neg_ratio := 0 }
        [(0, 2)] (some [1]) 1).getD 0
          (buildBatch
            { num_nodes := 3, edges := [(1, 2), (0, 2)], x := [10, 11, 12],
              edge_attr := [100, 101] }
            { num_neighbors := [-1], directed := true, neg_ratio := 0 } []
            none)).edge_index,
      pr.1 < ((linkLoaderBatches
        { num_nodes := 3, edges := [(1, 2), (0, 2)], x := [10, 11, 12],
          edge_attr := [100, 101] }
        { num_neighbors := [-1], directed := true, neg_ratio := 0 }
        [(0, 2)] (some [1]) 1).getD 0
          (buildBatch
            { num_nodes := 3, edges := [(1, 2), (0, 2)], x := [10, 11, 12],
              edge_attr := [100, 101] }
            { num_neighbors := [-1], directed := true, neg_ratio := 0 } []
            none)).num_nodes ∧
      pr.2 < ((linkLoaderBatches
        { num_nodes := 3, edges := [(1, 2), (0, 2)], x := [10, 11, 12],
          edge_attr := [100, 101] }
        { num_neighbors := [-1], directed := true, neg_ratio := 0 }
        [(0, 2)] (some [1]) 1).getD 0
          (buildBatch
            { num_nodes := 3, edges := [(1, 2), (0, 2)], x := [10, 11, 12],
              edge_attr := [100, 101] }
            { num_neighbors := [-1], directed := true, neg_ratio := 0 } []
            none)).num_nodes) ∧
    (∀ v ∈ ((linkLoaderBatches
        { num_nodes := 3, edges := [(1, 2), (0, 2)], x := [10, 11, 12],
          edge_attr := [100, 101] }
        { num_neighbors := [-1], directed := true, neg_ratio := 0 }
        [(0, 2)] (some [1]) 1).getD 0
          (buildBatch
            { num_nodes := 3, edges := [(1, 2), (0, 2)], x := [10, 11, 12],
              edge_attr := [100, 101] }
            { num_neighbors := [-1], directed := true, neg_ratio := 0 } []
            none)).x, v ∈ ([10, 11, 12] : List Int)) ∧
    (∀ v ∈ ((linkLoaderBatches
        { num_nodes := 3, edges := [(1, 2), (0, 2)], x := [10, 11, 12],
          edge_attr := [100, 101] }
        { num_neighbors := [-1], directed := true, neg_ratio := 0 }
        [(0, 2)] (some [1]) 1).getD 0
          (buildBatch
            { num_nodes := 3, edges := [(1, 2), (0, 2)], x := [10, 11, 12],
              edge_attr := [100, 101] }
            { num_neighbors := [-1], directed := true, neg_ratio := 0 } []
            none)).edge_attr, v ∈ ([100, 101] : List Int)) ∧
    ((linkLoaderBatches
        { num_nodes := 3, edges := [(1, 2), (0, 2)], x := [10, 11, 12],
          edge_attr := [100, 101] }
        { num_neighbors := [-1], directed := true, neg_ratio := 0 }
        [(0, 2)] (some [1]) 1).getD 0
          (buildBatch
            { num_nodes := 3, edges := [(1, 2), (0, 2)], x := [10, 11, 12],
              edge_attr := [100, 101] }
            { num_neighbors := [-1], directed := true, neg_ratio := 0 } []
            none)).x.length ≤ 3 := by
  have h := batch_remap_and_slice
    { num_nodes := 3, edges := [(1, 2), (0, 2)], x := [10, 11, 12],
      edge_attr := [100, 101] }
    { num_neighbors := [-1], directed := true, neg_ratio := 0 }
    [(0, 2)] (some [1]) 1 ⟨rfl, rfl, by decide⟩ (by decide) (by decide)
  exact h _ (by decide)

theorem take_replicate_append {α : Type} (n : Nat) (x : α) (l : List α) :
    (List.replicate n x ++ l).take n = List.replicate n x := by
  have h := List.take_left (List.replicate n x) l
  rwa [List.length_replicate] at h

theorem drop_replicate_append {α : Type} (n : Nat) (x : α) (l : List α) :
    (List.replicate n x ++ l).drop n = l := by
  have h := List.drop_left (List.replicate n x) l
  rwa [List.length_replicate] at h

/-- C3: with negative sampling at ratio `1.0` and no user labels, every batch
built from `bs` seed edges has an `edge_label_index` with exactly `2 * bs`
columns, an `edge_label` of the same length whose first `bs` entries are all
`1` (the positive seed edges) and whose last `bs` entries are all `0` (the
generated negatives). -/
theorem neg_sampling_label_layout (g : Graph) (p : LoaderParams)
    (eli : List (Nat × Nat)) (bs : Nat) (hr : p.neg_ratio = 1) (hbs : 0 < bs)
    (hdvd : bs ∣ eli.length) :
    ∀ b ∈ linkLoaderBatches g p eli none bs,
      b.edge_label_index.length = 2 * bs ∧
      b.edge_label.length = 2 * bs ∧
      (∀ v ∈ b.edge_label.take bs, v = 1) ∧
      (∀ v ∈ b.edge_label.drop bs, v = 0) := by
  intro b hb
  unfold linkLoaderBatches at hb
  rcases List.mem_map.1 hb with ⟨c, hc, hbc⟩
  have hclen : c.length = bs := chunksOf_length hbs hdvd hc
  subst hbc
  have hlab : (buildBatch g p c none).edge_label =
      List.replicate bs (1 : Int) ++ List.replicate bs 0 := by
    simp [buildBatch, hr, hclen]
  refine ⟨?_, ?_, ?_, ?_⟩
  · simp [buildBatch, hr, hclen]
    omega
  · rw [hlab]
    simp
    omega
  · intro v hv
    rw [hlab, take_replicate_append] at hv
    exact (List.mem_replicate.1 hv).2
  · intro v hv
    rw [hlab, drop_replicate_append] at hv
    exact (List.mem_replicate.1 hv).2

/-- Witness for C3 on a concrete graph with two seed edges and batch size 1,
instantiated at the first batch. -/
theorem neg_sampling_label_layout_witness :
    ((linkLoaderBatches
        { num_nodes := 3, edges := [(1, 2), (0, 2)], x := [10, 11, 12],
          edge_attr := [100, 101] }
        { num_neighbors := [-1], directed := true, neg_ratio := 1 }
        [(0, 2), (1, 2)] none 1).getD 0
          (buildBatch
            { num_nodes := 3, edges := [(1, 2), (0, 2)], x := [10, 11, 12],
              edge_attr := [100, 101] }
            { num_neighbors := [-1], directed := true, neg_ratio := 1 } []
            none)).edge_label_index.length = 2 * 1 ∧
    ((linkLoaderBatches
        { num_nodes := 3, edges := [(1, 2), (0, 2)], x := [10, 11, 12],
          edge_attr := [100, 101] }
        { num_neighbors := [-1], directed := true, neg_ratio := 1 }
        [(0, 2), (1, 2)] none 1).getD 0
          (buildBatch
            { num_nodes := 3, edges := [(1, 2), (0, 2)], x := [10, 11, 12],
              edge_attr := [100, 101] }
            { num_neighbors := [-1], directed := true, neg_ratio := 1 } []
            none)).edge_label.length = 2 * 1 ∧
    ((linkLoaderBatches
        { num_nodes := 3, edges := [(1, 2), (0, 2)], x := [10, 11, 12],
          edge_attr := [100, 101] }
        { num_neighbors := [-1], directed := true, neg_ratio := 1 }
        [(0, 2), (1, 2)] none 1).getD 0
          (buildBatch
            { num_nodes := 3, edges := [(1, 2), (0, 2)], x := [10, 11, 12],
              edge_attr := [100, 101] }
            { num_neighbors := [-1], directed := true, neg_ratio := 1 } []
            none)).edge_label.getD 0 0 = 1 ∧
    ((linkLoaderBatches
        { num_nodes := 3, edges := [(1, 2), (0, 2)], x := [10, 11, 12],
          edge_attr := [100, 101] }
        { num_neighbors := [-1], directed := true, neg_ratio := 1 }
        [(0, 2), (1, 2)] none 1).getD 0
          (buildBatch
            { num_nodes := 3, edges := [(1, 2), (0, 2)], x := [10, 11, 12],
              edge_attr := [100, 101] }
            { num_neighbors := [-1], directed := true, neg_ratio := 1 } []
            none)).edge_label.getD 1 0 = 0 := by
  have h := neg_sampling_label_layout
    { num_nodes := 3, edges := [(1, 2), (0, 2)], x := [10, 11, 12],
      edge_attr := [100, 101] }
    { num_neighbors := [-1], directed := true, neg_ratio := 1 }
    [(0, 2), (1, 2)] 1 rfl (by decide) (by decide)
  have h0 := h ((linkLoaderBatches
      { num_nodes := 3, edges := [(1, 2), (0, 2)], x := [10, 11, 12],
        edge_attr := [100, 101] }
      { num_neighbors := [-1], directed := true, neg_ratio := 1 }
      [(0, 2), (1, 2)] none 1).getD 0
        (buildBatch
          { num_nodes := 3, edges := [(1, 2), (0, 2)], x := [10, 11, 12],
            edge_attr := [100, 101] }
          { num_neighbors := [-1], directed := true, neg_ratio := 1 } []
          none)) (by decide)
  exact ⟨h0.1, h0.2.1, h0.2.2.1 _ (by decide), h0.2.2.2 _ (by decide)⟩

/-- C2 (amended): a batch is self-contained in its positively-labeled seed
edges under the regime the tests exercise — without negative sampling, with
every fanout `-1` (take all incident edges) and at least one hop, every
`edge_label_index` column whose label is `1` and which is an edge of the
original graph appears, in local ids, as a column of the batch's
`edge_index`. With a bounded fanout a seed edge can be dropped from the
sampled subgraph, so the unconditional claim fails (see the
counterexample). -/
theorem seed_edges_in_subgraph (g : Graph) (p : LoaderParams)
    (eli : List (Nat × Nat)) (ls : List Int) (bs : Nat) (hr : p.neg_ratio = 0)
    (hall : ∀ k ∈ p.num_neighbors, k = -1) (hd : 1 ≤ p.num_neighbors.length)
    (hpos : ∀ pr ∈ eli.zip ls, pr.2 = 1 → pr.1 ∈ g.edges) :
    ∀ b ∈ linkLoaderBatches g p eli (some ls) bs,
      ∀ j, j < b.edge_label.length → b.edge_label.getD j 0 = 1 →
        b.edge_label_index.getD j (0, 0) ∈ b.edge_index := by
  intro b hb j hj hlab1
  unfold linkLoaderBatches at hb
  rcases List.mem_map.1 hb with ⟨c, hc, hbc⟩
  subst hbc
  have h3 : (buildBatch g p (c.map Prod.fst) (some (c.map Prod.snd))).edge_label =
      c.map Prod.snd := by
    simp [buildBatch, hr]
  have h1 : (buildBatch g p (c.map Prod.fst) (some (c.map Prod.snd))).edge_label_index =
      (c.map Prod.fst).map (fun e =>
        ((sampleSubgraph g p.directed p.num_neighbors (c.map Prod.fst)).1.nodes.indexOf e.1,
         (sampleSubgraph g p.directed p.num_neighbors (c.map Prod.fst)).1.nodes.indexOf e.2)) := by
    simp [buildBatch, hr]
  have h2 : (buildBatch g p (c.map Prod.fst) (some (c.map Prod.snd))).edge_index =
      (sampleSubgraph g p.directed p.num_neighbors (c.map Prod.fst)).1.edges.map (fun e =>
        ((sampleSubgraph g p.directed p.num_neighbors (c.map Prod.fst)).1.nodes.indexOf e.2.1,
         (sampleSubgraph g p.directed p.num_neighbors (c.map Prod.fst)).1.nodes.indexOf e.2.2)) := by
    simp [buildBatch, hr]
  rw [h3] at hj hlab1
  have hjc : j < c.length := by simpa using hj
  have hprmem : c.getD j ((0, 0), (0 : Int)) ∈ c := getD_mem hjc _
  have hprzip : c.getD j ((0, 0), (0 : Int)) ∈ eli.zip ls :=
    chunksOf_subset hc _ hprmem
  have hlabval : (c.getD j ((0, 0), (0 : Int))).2 = 1 := by
    rw [← getD_map Prod.snd hjc ((0, 0), (0 : Int)) 0]
    exact hlab1
  have hedge : (c.getD j ((0, 0), (0 : Int))).1 ∈ g.edges := hpos _ hprzip hlabval
  rcases mem_edgesWithId_of_mem hedge with ⟨i, hEwid⟩
  have hsnmem : (c.getD j ((0, 0), (0 : Int))).1.2 ∈ seedNodesOf (c.map Prod.fst) :=
    mem_seedNodesOf.2 ⟨(c.getD j ((0, 0), (0 : Int))).1,
      List.mem_map.2 ⟨_, hprmem, rfl⟩, Or.inr rfl⟩
  rcases hnb : p.num_neighbors with _ | ⟨k, ks⟩
  · rw [hnb] at hd
    simp at hd
  · have hk : k = -1 := hall k (by rw [hnb]; exact List.mem_cons_self _ _)
    have hEhop : (i, (c.getD j ((0, 0), (0 : Int))).1.1, (c.getD j ((0, 0), (0 : Int))).1.2) ∈
        hopEdges g p.directed k (seedNodesOf (c.map Prod.fst)) := by
      refine mem_hopEdges.2 ⟨(c.getD j ((0, 0), (0 : Int))).1.2, hsnmem, ?_⟩
      rw [hk, takeFan_of_neg (by norm_num)]
      exact mem_incident hEwid rfl
    have hEfinal : (i, (c.getD j ((0, 0), (0 : Int))).1.1, (c.getD j ((0, 0), (0 : Int))).1.2) ∈
        (sampleSubgraph g p.directed p.num_neighbors (c.map Prod.fst)).1.edges := by
      rw [hnb]
      unfold sampleSubgraph
      rw [sampleLoop_cons]
      rcases sampleLoop_edges_extend ks
        ((addNodes (seedNodesOf (c.map Prod.fst))
          (hopNodes g p.directed k (seedNodesOf (c.map Prod.fst)))).drop
            (seedNodesOf (c.map Prod.fst)).length)
        { nodes := addNodes (seedNodesOf (c.map Prod.fst))
            (hopNodes g p.directed k (seedNodesOf (c.map Prod.fst))),
          edges := [] ++ hopEdges g p.directed k (seedNodesOf (c.map Prod.fst)) }
        with ⟨r, hrr⟩
      rw [hrr]
      simp only [List.nil_append]
      exact List.mem_append_left _ hEhop
    rw [h1, h2]
    have hjm : j < (c.map Prod.fst).length := by simpa using hjc
    have hgetj : ((c.map Prod.fst).map (fun e =>
        ((sampleSubgraph g p.directed p.num_neighbors (c.map Prod.fst)).1.nodes.indexOf e.1,
         (sampleSubgraph g p.directed p.num_neighbors (c.map Prod.fst)).1.nodes.indexOf e.2))).getD
          j (0, 0) =
        ((sampleSubgraph g p.directed p.num_neighbors (c.map Prod.fst)).1.nodes.indexOf
          (c.getD j ((0, 0), (0 : Int))).1.1,
         (sampleSubgraph g p.directed p.num_neighbors (c.map Prod.fst)).1.nodes.indexOf
          (c.getD j ((0, 0), (0 : Int))).1.2) := by
      rw [getD_map _ hjm ((0, 0) : Nat × Nat) ((0, 0) : Nat × Nat)]
      rw [getD_map Prod.fst hjc ((0, 0), (0 : Int)) ((0, 0) : Nat × Nat)]
    rw [hgetj]
    exact List.mem_map.2 ⟨_, hEfinal, rfl⟩

/-- Counterexample for C2 as stated: with fanout `1`, node `2` has two
in-edges and the sampler keeps only the first, dropping the positively
labeled seed edge `(0, 2)`; its local column `(0, 1)` is not a column of the
batch's `edge_index`. -/
theorem seed_edges_counterexample :
    ((linkLoaderBatches
        { num_nodes := 3, edges := [(1, 2), (0, 2)], x := [10, 11, 12],
          edge_attr := [100, 101] }
        { num_neighbors := [1], directed := true, neg_ratio := 0 }
        [(0, 2)] (some [1]) 1).getD 0
          (buildBatch
            { num_nodes := 3, edges := [(1, 2), (0, 2)], x := [10, 11, 12],
              edge_attr := [100, 101] }
            { num_neighbors := [1], directed := true, neg_ratio := 0 } [] none)).edge_label.getD
      0 0 = 1 ∧
    ((linkLoaderBatches
        { num_nodes := 3, edges := [(1, 2), (0, 2)], x := [10, 11, 12],
          edge_attr := [100, 101] }
        { num_neighbors := [1], directed := true, neg_ratio := 0 }
        [(0, 2)] (some [1]) 1).getD 0
          (buildBatch
            { num_nodes := 3, edges := [(1, 2), (0, 2)], x := [10, 11, 12],
              edge_attr := [100, 101] }
            { num_neighbors := [1], directed := true, neg_ratio := 0 } [] none)).edge_label_index.getD
      0 (0, 0) ∉
    ((linkLoaderBatches
        { num_nodes := 3, edges := [(1, 2), (0, 2)], x := [10, 11, 12],
          edge_attr := [100, 101] }
        { num_neighbors := [1], directed := true, neg_ratio := 0 }
        [(0, 2)] (some [1]) 1).getD 0
          (buildBatch
            { num_nodes := 3, edges := [(1, 2), (0, 2)], x := [10, 11, 12],
              edge_attr := [100, 101] }
            { num_neighbors := [1], directed := true, neg_ratio := 0 } [] none)).edge_index := by
  decide

/-- Witness for C2 (amended): with full fanout the positively labeled seed
edge of the same graph does land in the batch's `edge_index`, instantiated
at the first batch and its first label column. -/
theorem seed_edges_in_subgraph_witness :
    ((linkLoaderBatches
        { num_nodes := 3, edges := [(1, 2), (0, 2)], x := [10, 11, 12],
          edge_attr := [100, 101] }
        { num_neighbors := [-1, -1], directed := true, neg_ratio := 0 }
        [(0, 2)] (some [1]) 1).getD 0
          (buildBatch
            { num_nodes := 3, edges := [(1, 2), (0, 2)], x := [10, 11, 12],
              edge_attr := [100, 101] }
            { num_neighbors := [-1, -1], directed := true, neg_ratio := 0 } []
            none)).edge_label_index.getD 0 (0, 0) ∈
      ((linkLoaderBatches
        { num_nodes := 3, edges := [(1, 2), (0, 2)], x := [10, 11, 12],
          edge_attr := [100, 101] }
        { num_neighbors := [-1, -1], directed := true, neg_ratio := 0 }
        [(0, 2)] (some [1]) 1).getD 0
          (buildBatch
            { num_nodes := 3, edges := [(1, 2), (0, 2)], x := [10, 11, 12],
              edge_attr := [100, 101] }
            { num_neighbors := [-1, -1], directed := true, neg_ratio := 0 } []
            none)).edge_index := by
  have h := seed_edges_in_subgraph
    { num_nodes := 3, edges := [(1, 2), (0, 2)], x := [10, 11, 12],
      edge_attr := [100, 101] }
    { num_neighbors := [-1, -1], directed := true, neg_ratio := 0 }
    [(0, 2)] [1] 1 rfl (by decide) (by decide) (by decide)
  exact h _ (by decide) 0 (by decide) (by decide)

/-- C6: sampling is bounded-depth and bounded-fanout — the sampler performs
exactly one hop per `num_neighbors` entry; at hop `h` every frontier node
contributes at most `num_neighbors[h]` sampled incident edges when the
fanout is non-negative, and all of its incident edges when it is `-1`; and
every sampled node is reachable from the seed nodes in at most
`num_neighbors.length` hops. -/
theorem bounded_depth_fanout (g : Graph) (dir : Bool) (numNb : List Int)
    (seeds : List (Nat × Nat)) :
    (sampleSubgraph g dir numNb seeds).2.length = numNb.length ∧
    (∀ h pr, pr ∈ (sampleSubgraph g dir numNb seeds).2.getD h [] →
      (0 ≤ numNb.getD h 0 → pr.2.length ≤ (numNb.getD h 0).toNat) ∧
      (numNb.getD h 0 = -1 → pr.2 = incident g dir pr.1)) ∧
    (∀ v ∈ (sampleSubgraph g dir numNb seeds).1.nodes,
      v ∈ reachList g dir (seedNodesOf seeds) numNb.length) := by
  unfold sampleSubgraph
  refine ⟨sampleLoop_trace_length numNb _ _, ?_, ?_⟩
  · intro h pr hpr
    have hspec := sampleLoop_trace_spec numNb _ _ h pr hpr
    constructor
    · intro h0
      rw [hspec]
      exact length_takeFan_le h0
    · intro hneg
      rw [hspec, hneg, takeFan_of_neg (by norm_num)]
  · exact sampleLoop_reach numNb _ _ _ (fun v hv => hv) (fun v hv => hv)

/-- Witness for C6 on a concrete graph: fanout 1 over a node with two
in-edges keeps exactly one sampled edge at hop 0. -/
theorem bounded_depth_fanout_witness :
    ((sampleSubgraph
        { num_nodes := 3, edges := [(1, 2), (0, 2)], x := [10, 11, 12],
          edge_attr := [100, 101] } true [1] [(0, 2)]).2.length = 1 ∧
    (∀ h pr, pr ∈ (sampleSubgraph
        { num_nodes := 3, edges := [(1, 2), (0, 2)], x := [10, 11, 12],
          edge_attr := [100, 101] } true [1] [(0, 2)]).2.getD h [] →
      (0 ≤ ([1] : List Int).getD h 0 → pr.2.length ≤ (([1] : List Int).getD h 0).toNat) ∧
      (([1] : List Int).getD h 0 = -1 → pr.2 = incident
        { num_nodes := 3, edges := [(1, 2), (0, 2)], x := [10, 11, 12],
          edge_attr := [100, 101] } true pr.1)) ∧
    (∀ v ∈ (sampleSubgraph
        { num_nodes := 3, edges := [(1, 2), (0, 2)], x := [10, 11, 12],
          edge_attr := [100, 101] } true [1] [(0, 2)]).1.nodes,
      v ∈ reachList
        { num_nodes := 3, edges := [(1, 2), (0, 2)], x := [10, 11, 12],
          edge_attr := [100, 101] } true (seedNodesOf [(0, 2)]) 1)) :=
  bounded_depth_fanout
    { num_nodes := 3, edges := [(1, 2), (0, 2)], x := [10, 11, 12],
      edge_attr := [100, 101] } true [1] [(0, 2)]

/-- C4: with a temporal attribute configured, no sampled node is later than
the latest seed: every entry of the batch's sliced time attribute is bounded
by the maximum time over the nodes referenced in `edge_label_index`, and the
maximum time over all batch nodes equals (hence is attained at) the maximum
over the `edge_label_index` nodes. -/
theorem temporal_max_at_seeds (g : Graph) (time : List Int) (p : LoaderParams)
    (seeds : List (Nat × Nat)) (hne : seeds ≠ []) :
    (∀ t ∈ (buildBatchT g time p seeds).time,
        t ≤ maxIntList (seedTimesOf (buildBatchT g time p seeds))) ∧
    maxIntList (buildBatchT g time p seeds).time =
      maxIntList (seedTimesOf (buildBatchT g time p seeds)) := by
  have hsn_sub : ∀ v ∈ seedNodesOf seeds,
      v ∈ (sampleLoopT g p.directed time p.num_neighbors
        ((seedNodesOf seeds).map (fun v => (v, time.getD v 0)))
        (seedNodesOf seeds, [])).1 := by
    intro v hv
    exact sampleLoopT_nodes_extend p.num_neighbors _ _ v hv
  have hseedsG_mem : ∀ v ∈ seedNodesOf seeds,
      time.getD v 0 ∈ ((seeds.map (fun e => [e.1, e.2])).flatten).map
        (fun v => time.getD v 0) := by
    intro v hv
    rcases mem_seedNodesOf.1 hv with ⟨e, he, hve⟩
    refine List.mem_map.2 ⟨v, ?_, rfl⟩
    refine List.mem_flatten.2 ⟨[e.1, e.2], List.mem_map.2 ⟨e, he, rfl⟩, ?_⟩
    rcases hve with rfl | rfl
    · simp
    · simp
  have hbound : ∀ v ∈ (sampleLoopT g p.directed time p.num_neighbors
      ((seedNodesOf seeds).map (fun v => (v, time.getD v 0)))
      (seedNodesOf seeds, [])).1,
      time.getD v 0 ≤ maxIntList (((seeds.map (fun e => [e.1, e.2])).flatten).map
        (fun v => time.getD v 0)) := by
    refine sampleLoopT_time_bound p.num_neighbors _ _ ?_ ?_
    · intro q hq
      rcases List.mem_map.1 hq with ⟨v, hv, hqv⟩
      subst hqv
      exact le_maxIntList (hseedsG_mem v hv)
    · intro v hv
      exact le_maxIntList (hseedsG_mem v hv)
  have hpt : ∀ u ∈ seedNodesOf seeds,
      (((sampleLoopT g p.directed time p.num_neighbors
        ((seedNodesOf seeds).map (fun v => (v, time.getD v 0)))
        (seedNodesOf seeds, [])).1).map (fun v => time.getD v 0)).getD
          (((sampleLoopT g p.directed time p.num_neighbors
            ((seedNodesOf seeds).map (fun v => (v, time.getD v 0)))
            (seedNodesOf seeds, [])).1).indexOf u) 0 = time.getD u 0 := by
    intro u hu
    have hmem := hsn_sub u hu
    have hidx := List.indexOf_lt_length.2 hmem
    rw [getD_map (fun v => time.getD v 0) hidx 0 0]
    rw [getD_indexOf hmem 0]
  have hstA : seedTimesOf (buildBatchT g time p seeds) =
      ((seeds.map (fun e => [e.1, e.2])).flatten).map (fun v => time.getD v 0) := by
    simp only [seedTimesOf, buildBatchT]
    rw [List.map_map, List.map_flatten, List.map_flatten, List.map_map, List.map_map]
    congr 1
    refine List.map_congr_left ?_
    intro e he
    show List.map _ _ = _
    simp only [Function.comp, List.map_cons, List.map_nil]
    rw [hpt e.1 (mem_seedNodesOf.2 ⟨e, he, Or.inl rfl⟩),
        hpt e.2 (mem_seedNodesOf.2 ⟨e, he, Or.inr rfl⟩)]
  have hbtime : (buildBatchT g time p seeds).time =
      ((sampleLoopT g p.directed time p.num_neighbors
        ((seedNodesOf seeds).map (fun v => (v, time.getD v 0)))
        (seedNodesOf seeds, [])).1).map (fun v => time.getD v 0) := rfl
  rcases List.exists_mem_of_ne_nil seeds hne with ⟨e0, he0⟩
  have he0sn : e0.1 ∈ seedNodesOf seeds := mem_seedNodesOf.2 ⟨e0, he0, Or.inl rfl⟩
  have hbtne : (buildBatchT g time p seeds).time ≠ [] := by
    rw [hbtime]
    exact List.ne_nil_of_mem (List.mem_map.2 ⟨e0.1, hsn_sub e0.1 he0sn, rfl⟩)
  have hseedsGne : ((seeds.map (fun e => [e.1, e.2])).flatten).map
      (fun v => time.getD v 0) ≠ [] :=
    List.ne_nil_of_mem (hseedsG_mem e0.1 he0sn)
  have hconc1 : ∀ t ∈ (buildBatchT g time p seeds).time,
      t ≤ maxIntList (seedTimesOf (buildBatchT g time p seeds)) := by
    intro t ht
    rw [hstA]
    rw [hbtime] at ht
    rcases List.mem_map.1 ht with ⟨v, hv, hvt⟩
    subst hvt
    exact hbound v hv
  refine ⟨hconc1, ?_⟩
  apply le_antisymm
  · have hmem := maxIntList_mem hbtne
    exact hconc1 _ hmem
  · rw [hstA]
    have hmem := maxIntList_mem hseedsGne
    rcases List.mem_map.1 hmem with ⟨v, hv, hvt⟩
    rcases List.mem_flatten.1 hv with ⟨l, hl, hvl⟩
    rcases List.mem_map.1 hl with ⟨e, he, hle⟩
    subst hle
    have hvsn : v ∈ seedNodesOf seeds := by
      refine mem_seedNodesOf.2 ⟨e, he, ?_⟩
      simp at hvl
      exact hvl
    rw [← hvt]
    apply le_maxIntList
    rw [hbtime]
    exact List.mem_map.2 ⟨v, hsn_sub v hvsn, rfl⟩

/-- Witness for C4 on a concrete temporal graph (seed edge `(0, 2)`, node
times `[5, 3, 4]`). -/
theorem temporal_max_at_seeds_witness :
    (∀ t ∈ (buildBatchT
        { num_nodes := 3, edges := [(1, 2), (0, 2)], x := [10, 11, 12],
          edge_attr := [100, 101] } [5, 3, 4]
        { num_neighbors := [-1, -1], directed := true, neg_ratio := 0 }
        [(0, 2)]).time,
      t ≤ maxIntList (seedTimesOf (buildBatchT
        { num_nodes := 3, edges := [(1, 2), (0, 2)], x := [10, 11, 12],
          edge_attr := [100, 101] } [5, 3, 4]
        { num_neighbors := [-1, -1], directed := true, neg_ratio := 0 }
        [(0, 2)]))) ∧
    maxIntList (buildBatchT
        { num_nodes := 3, edges := [(1, 2), (0, 2)], x := [10, 11, 12],
          edge_attr := [100, 101] } [5, 3, 4]
        { num_neighbors := [-1, -1], directed := true, neg_ratio := 0 }
        [(0, 2)]).time =
      maxIntList (seedTimesOf (buildBatchT
        { num_nodes := 3, edges := [(1, 2), (0, 2)], x := [10, 11, 12],
          edge_attr := [100, 101] } [5, 3, 4]
        { num_neighbors := [-1, -1], directed := true, neg_ratio := 0 }
        [(0, 2)])) :=
  temporal_max_at_seeds
    { num_nodes := 3, edges := [(1, 2), (0, 2)], x := [10, 11, 12],
      edge_attr := [100, 101] } [5, 3, 4]
    { num_neighbors := [-1, -1], directed := true, neg_ratio := 0 }
    [(0, 2)] (by decide)

theorem setupStores_fs_tensors :
    ∀ (xs : List (String × List Int)) (init : MyFeatureStore),
      (xs.foldl (fun fs q => put_tensor fs q.1 "x" q.2) init).tensors =
        init.tensors ++ xs.map (fun q => (q.1, "x", q.2)) := by
  intro xs
  induction xs with
  | nil => intro init; simp
  | cons q t ih =>
    intro init
    have hstep : (q :: t).foldl (fun fs q => put_tensor fs q.1 "x" q.2) init =
        t.foldl (fun fs q => put_tensor fs q.1 "x" q.2) (put_tensor init q.1 "x" q.2) := rfl
    rw [hstep, ih]
    simp [put_tensor]

theorem setupStores_gs_edges :
    ∀ (es : List (EdgeKey × List (Nat × Nat))) (init : MyGraphStore),
      (es.foldl (fun gs q => put_edge_index gs q.1 q.2) init).gsEdges =
        init.gsEdges ++ es := by
  intro es
  induction es with
  | nil => intro init; simp
  | cons q t ih =>
    intro init
    have hstep : (q :: t).foldl (fun gs q => put_edge_index gs q.1 q.2) init =
        t.foldl (fun gs q => put_edge_index gs q.1 q.2) (put_edge_index init q.1 q.2) := rfl
    rw [hstep, ih]
    simp [put_edge_index]

theorem contentOfStores_setup (xs : List (String × List Int))
    (es : List (EdgeKey × List (Nat × Nat))) :
    contentOfStores (setupStores xs es).1 (setupStores xs es).2 =
      contentOfData (setupData xs es) := by
  unfold contentOfStores contentOfData setupStores setupData
  simp only [setupStores_fs_tensors, setupStores_gs_edges, List.nil_append]
  congr 1
  have hfilter : (xs.map (fun q => (q.1, "x", q.2))).filter (fun t => t.2.1 == "x") =
      xs.map (fun q => (q.1, "x", q.2)) := by
    refine List.filter_eq_self.2 ?_
    intro t ht
    rcases List.mem_map.1 ht with ⟨q, -, hq⟩
    subst hq
    simp
  rw [hfilter, List.map_map]
  have hid : ∀ q : String × List Int, ((fun t : String × String × List Int =>
      (t.1, t.2.2)) ∘ (fun q : String × List Int => (q.1, "x", q.2))) q = q := by
    intro q
    rfl
  calc xs.map ((fun t : String × String × List Int => (t.1, t.2.2)) ∘
        (fun q : String × List Int => (q.1, "x", q.2)))
      = xs.map id := List.map_congr_left (fun q _ => hid q)
    _ = xs := List.map_id xs

/-- C5: the loader behaves identically over its two storage backends — for
stores populated with the same tensors through `put_tensor` /
`put_edge_index` as the in-memory data object holds by attribute
assignment, the two loaders have the same string representation and produce
equal batch lists, hence in particular the same multiset of node features
per node type and edge indices of the same sizes per relation. -/
theorem backend_equivalence (xs : List (String × List Int))
    (es : List (EdgeKey × List (Nat × Nat))) (p : LoaderParams) (seedRel : EdgeKey)
    (bs : Nat) :
    loaderFromStores (setupStores xs es).1 (setupStores xs es).2 p seedRel bs =
      loaderFromData (setupData xs es) p seedRel bs ∧
    loaderReprOf (contentOfStores (setupStores xs es).1 (setupStores xs es).2) =
      loaderReprOf (contentOfData (setupData xs es)) := by
  constructor
  · unfold loaderFromStores loaderFromData
    rw [contentOfStores_setup]
  · rfl
